import Mathlib

/-!
Formal model of `pylib/cqlshlib/copyutil.py` (cqlsh COPY TO / COPY FROM data plane).

Shallow embedding conventions:
- Python `int` is modelled as `Int` (or `Nat` where the source value is a count
  that is never negative), `None`-able integers as `Option Int`.
- Python 2 mixed comparisons `None < int` (always true) and `None > int`
  (always false) are modelled by `pyLt` below.
- Randomness (`randrange`) and wall-clock time are passed in as explicit
  parameters or oracle streams.
- Fallible code returns `Option` / `Except`; `while` loops are modelled with an
  explicit fuel argument (all the properties proved are safety properties of
  whatever the loop has produced).
-/

namespace Copyutil

/-! ## Python 2 comparison helpers

In Python 2, `None` compares less than every integer; `x < y`, `x > y` on
`Option Int` values therefore behave as follows. -/

/-- Python 2 `<` on possibly-`None` integers: `None < v` is true for every
integer `v`, `v < None` is false, `None < None` is false. -/
def pyLt : Option Int → Option Int → Bool
  | none, none => false
  | none, some _ => true
  | some _, none => false
  | some a, some b => a < b

/-- Python 2 `>` on possibly-`None` integers. -/
def pyGt (a b : Option Int) : Bool := pyLt b a

/-- Python truthiness of a possibly-`None` integer: `None` and `0` are falsy. -/
def truthy : Option Int → Bool
  | none => false
  | some v => v ≠ 0

/-! ## ExpBackoffRetryPolicy (copyutil.py lines 1248-1292) -/

/-- Decision constants of the driver retry policy. -/
inductive RetryDecision where
  | RETRY
  | RETHROW
deriving DecidableEq, Repr

namespace ExpBackoffRetryPolicy

/-- Models `ExpBackoffRetryPolicy.backoff`: returns `-1` when
`retry_num >= self.max_attempts`, else `randrange(0, pow(2, retry_num + 1))`.
The random draw is passed in as `rand_val`; theorems carry the range
constraint `rand_val < 2 ^ (retry_num + 1)` of `randrange` as a hypothesis. -/
def backoff (max_attempts retry_num rand_val : Nat) : Int :=
  if retry_num ≥ max_attempts then -1
  else (rand_val : Int)

/-- Models `ExpBackoffRetryPolicy._handle_timeout`. The result is
`(decision, returned consistency, seconds slept)`: `delay > 0` sleeps `delay`
then retries, `delay == 0` retries immediately, `delay < 0` rethrows. -/
def handle_timeout (max_attempts retry_num rand_val consistency : Nat) :
    RetryDecision × Option Nat × Nat :=
  let delay := backoff max_attempts retry_num rand_val
  if delay > 0 then (RetryDecision.RETRY, some consistency, delay.toNat)
  else if delay = 0 then (RetryDecision.RETRY, some consistency, 0)
  else (RetryDecision.RETHROW, none, 0)

/-- Models `on_read_timeout`, which delegates to `_handle_timeout`. -/
def on_read_timeout (max_attempts retry_num rand_val consistency : Nat) :
    RetryDecision × Option Nat × Nat :=
  handle_timeout max_attempts retry_num rand_val consistency

/-- Models `on_write_timeout`, which delegates to `_handle_timeout`. -/
def on_write_timeout (max_attempts retry_num rand_val consistency : Nat) :
    RetryDecision × Option Nat × Nat :=
  handle_timeout max_attempts retry_num rand_val consistency

end ExpBackoffRetryPolicy

/-! ## ImportConversion.convert_bool (copyutil.py lines 1650-1651) and the
`boolstyle` option (line 270) -/

namespace ImportConversion

/-- Models `convert_bool`:
`return True if v.lower() == self.boolean_styles[0].lower() else False`.
`boolean_styles` is the parsed `boolstyle` option (`check_options` guarantees
exactly two non-empty distinct entries). -/
def convert_bool (boolean_styles : List String) (v : String) : Bool :=
  v.toLower == (boolean_styles.headD "").toLower

/-- Models `CopyTask.parse_options` line 270:
`[s.strip() for s in opts.pop('boolstyle', 'True, False').split(',')]`. -/
def parse_boolstyle (s : String) : List String :=
  (s.splitOn ",").map (fun x => x.trim)

end ImportConversion

/-! ## ImportTaskError and ImportErrorHandler (copyutil.py lines 896-978) -/

/-- Models the `ImportTaskError` message record. -/
structure ImportTaskError where
  name : String
  msg : String
  rows : List (List String)
  attempts : Nat
  final : Bool
deriving DecidableEq, Repr

/-- Models Python `str.startswith`. -/
def str_starts_with (s p : String) : Bool :=
  p.data.isPrefixOf s.data

namespace ImportTaskError

/-- Models `ImportTaskError.is_parse_error`. -/
def is_parse_error (e : ImportTaskError) : Bool :=
  str_starts_with e.name "ValueError" || str_starts_with e.name "TypeError" ||
    str_starts_with e.name "ParseError" ||
      str_starts_with e.name "IndexError" ||
        str_starts_with e.name "ReadError"

end ImportTaskError

/-- Mutable state of `ImportErrorHandler`; `err_file` models the rows appended
to the error file by `add_failed_rows`. -/
structure ImportErrorHandler where
  max_parse_errors : Int
  max_insert_errors : Int
  parse_errors : Nat
  insert_errors : Nat
  num_rows_failed : Nat
  err_file : List (List String)
deriving Repr

namespace ImportErrorHandler

/-- Models `max_exceeded` with Python's chained comparison
`self.insert_errors > self.max_insert_errors >= 0` (and likewise for parse
errors): the insert check runs first; `-1` maxima never trigger. -/
def max_exceeded (h : ImportErrorHandler) : Bool :=
  if (h.insert_errors : Int) > h.max_insert_errors ∧ h.max_insert_errors ≥ 0 then true
  else if (h.parse_errors : Int) > h.max_parse_errors ∧ h.max_parse_errors ≥ 0 then true
  else false

/-- Models `add_failed_rows`: bump `num_rows_failed` and append the rows to
the error file. -/
def add_failed_rows (h : ImportErrorHandler) (rows : List (List String)) :
    ImportErrorHandler :=
  { h with num_rows_failed := h.num_rows_failed + rows.length,
           err_file := h.err_file ++ rows }

/-- Models `handle_error`: parse errors go to the parse counter and the error
file; insert errors go to the insert counter and reach the error file only
when `err.final` holds. -/
def handle_error (h : ImportErrorHandler) (err : ImportTaskError) :
    ImportErrorHandler :=
  if err.is_parse_error then
    add_failed_rows { h with parse_errors := h.parse_errors + err.rows.length } err.rows
  else
    let h := { h with insert_errors := h.insert_errors + err.rows.length }
    if !err.final then h
    else add_failed_rows h err.rows

end ImportErrorHandler

/-! ## The CQL datetime fallback of ImportConversion._get_converter.convert_datetime
(copyutil.py lines 1702-1731)

The compiled pattern is
`(\d{4})\-(\d{2})\-(\d{2})\s?(?:'T')?(?:(\d{2}):(\d{2})(?::(\d{2}))?)?(?:([+\-])(\d{2}):?(\d{2}))?`
used with `p.match(val)`, i.e. anchored at the start of the string only.
Because everything after the mandatory date part is optional and there is no
end anchor, the greedy first attempt of each optional group is determined
(no observable backtracking), so the matcher below is deterministic. -/

/-- Python `\s` (ASCII mode): space, tab, newline, carriage return, vertical
tab, form feed. -/
def isPySpace (c : Char) : Bool :=
  c = ' ' || c = '\t' || c = '\n' || c = '\r' || c = '\x0b' || c = '\x0c'

/-- Consume exactly `n` ASCII digits, returning their value. -/
def digitsVal : Nat → Nat → List Char → Option (Nat × List Char)
  | 0, acc, cs => some (acc, cs)
  | _ + 1, _, [] => none
  | n + 1, acc, c :: cs =>
      if c.isDigit then digitsVal n (acc * 10 + (c.toNat - 48)) cs else none

/-- Consume one expected character. -/
def expectChar (ch : Char) : List Char → Option (List Char)
  | c :: cs => if c = ch then some cs else none
  | [] => none

/-- Groups captured by the datetime pattern: the mandatory date, the optional
`HH:MM[:SS]` time, the optional `(+|-)HH[:]MM` timezone. -/
structure DatetimeMatch where
  year : Nat
  month : Nat
  day : Nat
  time : Option (Nat × Nat × Option Nat)
  tz : Option (Bool × Nat × Nat)
deriving DecidableEq, Repr

/-- The optional time group `(?:(\d{2}):(\d{2})(?::(\d{2}))?)?`: on any
failure inside, the group matches empty and consumes nothing. -/
def matchTimePart (cs : List Char) : Option (Nat × Nat × Option Nat) × List Char :=
  match digitsVal 2 0 cs with
  | none => (none, cs)
  | some (h, cs1) =>
    match expectChar ':' cs1 with
    | none => (none, cs)
    | some cs2 =>
      match digitsVal 2 0 cs2 with
      | none => (none, cs)
      | some (mi, cs3) =>
        match expectChar ':' cs3 with
        | none => (some (h, mi, none), cs3)
        | some cs4 =>
          match digitsVal 2 0 cs4 with
          | none => (some (h, mi, none), cs3)
          | some (s, cs5) => (some (h, mi, some s), cs5)

/-- The optional timezone group `(?:([+\-])(\d{2}):?(\d{2}))?`. After `:?`
consumes a colon, a failing `(\d{2})` also fails without the colon (a colon is
not a digit), so no backtracking is observable. -/
def matchTzPart (cs : List Char) : Option (Bool × Nat × Nat) × List Char :=
  match cs with
  | [] => (none, [])
  | c :: cs1 =>
    if c = '+' || c = '-' then
      match digitsVal 2 0 cs1 with
      | none => (none, c :: cs1)
      | some (th, cs2) =>
        let cs3 := match expectChar ':' cs2 with
          | some r => r
          | none => cs2
        match digitsVal 2 0 cs3 with
        | none => (none, c :: cs1)
        | some (tm, cs4) => (some (c = '-', th, tm), cs4)
    else (none, c :: cs1)

/-- Models `p.match(val)` for the datetime pattern: the mandatory
`(\d{4})\-(\d{2})\-(\d{2})`, then `\s?`, then the literal `(?:'T')?` (a quote,
a `T`, a quote - the quotes are part of the pattern), then the optional time
and timezone groups. Trailing characters are ignored (`match` has no end
anchor). -/
def match_cql_datetime (s : String) : Option DatetimeMatch := do
  let cs := s.data
  let (y, cs) ← digitsVal 4 0 cs
  let cs ← expectChar '-' cs
  let (mo, cs) ← digitsVal 2 0 cs
  let cs ← expectChar '-' cs
  let (d, cs) ← digitsVal 2 0 cs
  let cs := match cs with
    | c :: rest => if isPySpace c then rest else c :: rest
    | [] => []
  let cs := match cs with
    | '\'' :: 'T' :: '\'' :: rest => rest
    | other => other
  let (time, cs) := matchTimePart cs
  let (tz, _) := matchTzPart cs
  some { year := y, month := mo, day := d, time := time, tz := tz }

/-- Days from the Unix epoch of a civil date (valid month 1-12 and day
assumed, as `calendar.timegm` requires); standard era-based computation. -/
def days_from_civil (y : Int) (m d : Nat) : Int :=
  let y' : Int := if m ≤ 2 then y - 1 else y
  let era : Int := (if y' ≥ 0 then y' else y' - 399) / 400
  let yoe : Int := y' - era * 400
  let mp : Int := ((m : Int) + 9) % 12
  let doy : Int := (153 * mp + 2) / 5 + (d : Int) - 1
  let doe : Int := yoe * 365 + yoe / 4 - yoe / 100 + doy
  era * 146097 + doe - 719468

/-- Models `calendar.timegm` on the `struct_time` built by `convert_datetime`
(UTC seconds since the epoch). -/
def timegm (y : Int) (mo d h mi s : Nat) : Int :=
  days_from_civil y mo d * 86400 + (h : Int) * 3600 + (mi : Int) * 60 + (s : Int)

/-- Models the regex fallback of `convert_datetime` (lines 1714-1731), taken
when `time.strptime(val, self.time_format)` has raised `ValueError`. Missing
time groups mean midnight; a missing timezone group means the local offset
`-time.timezone`, passed here as `local_tz_offset`. The result is
milliseconds since the epoch; a failed match raises `ValueError`. -/
def convert_datetime_fallback (local_tz_offset : Int) (val : String) :
    Except String Int :=
  match match_cql_datetime val with
  | none => .error "ValueError"
  | some m =>
    let hms : Nat × Nat × Nat := match m.time with
      | none => (0, 0, 0)
      | some (h, mi, none) => (h, mi, 0)
      | some (h, mi, some s) => (h, mi, s)
    let offset : Int := match m.tz with
      | some (isMinus, th, tm) =>
          (if isMinus then -1 else 1) * ((th : Int) * 3600 + (tm : Int) * 60)
      | none => local_tz_offset
    .ok ((timegm (m.year : Int) m.month m.day hms.1 hms.2.1 hms.2.2 + offset) * 1000)

/-! ## FilesReader and PipeReader (copyutil.py lines 735-875) -/

/-- State of `FilesReader`. A source is modelled as its list of lines;
sources that failed to open (yielded as `None` by `get_source`) are omitted
from the model. -/
structure FilesReader where
  chunk_size : Nat
  header : Bool
  max_rows : Int
  skip_rows : Int
  sources : List (List String)
  num_sources : Nat
  current_source : Option (List String)
  num_read : Nat
deriving DecidableEq, Repr

namespace FilesReader

/-- Models `close_current_source`. -/
def close_current_source (st : FilesReader) : FilesReader :=
  { st with current_source := none }

/-- Models `next_source`: close the current source, open the next one and, if
`header` is set, consume its first line (`self.current_source.next()`). -/
def next_source (st : FilesReader) : Bool × FilesReader :=
  let st := st.close_current_source
  match st.sources with
  | [] => (false, st)
  | src :: rest =>
      let st := { st with sources := rest, num_sources := st.num_sources + 1 }
      let src := if st.header then src.drop 1 else src
      (true, { st with current_source := some src })

/-- Models `start`. -/
def start (st : FilesReader) : FilesReader := st.next_source.2

/-- Models the `exhausted` property. -/
def exhausted (st : FilesReader) : Bool := st.current_source.isNone

/-- The body of the `for i in xrange(min(max_rows, self.chunk_size))` loop of
`FilesReader.read_rows`: take the next line, count it, stop after `max_rows`
total lines, append it only once `num_read` exceeds `skip_rows`. -/
def read_rows_loop : Nat → FilesReader → List String → List String × FilesReader
  | 0, st, acc => (acc, st)
  | fuel + 1, st, acc =>
    match st.current_source with
    | none => (acc, st)
    | some [] => (acc, st.next_source.2)
    | some (row :: rest) =>
      let st := { st with current_source := some rest, num_read := st.num_read + 1 }
      if 0 ≤ st.max_rows ∧ st.max_rows < (st.num_read : Int) then
        (acc, st.next_source.2)
      else if (st.num_read : Int) > st.skip_rows then
        read_rows_loop fuel st (acc ++ [row])
      else
        read_rows_loop fuel st acc

/-- Models `FilesReader.read_rows`; the final `filter(None, rows)` drops falsy
(empty) rows. -/
def read_rows (st : FilesReader) (max_rows : Int) : List String × FilesReader :=
  if st.current_source.isNone then ([], st)
  else
    let (rows, st) := read_rows_loop (min max_rows (st.chunk_size : Int)).toNat st []
    (rows.filter (fun r => r ≠ ""), st)

end FilesReader

/-- State of `PipeReader`; `input` is the stream of `inmsg.recv()` results,
`none` being the end-of-input marker sent by the coordinator. -/
structure PipeReader where
  chunk_size : Nat
  header : Bool
  max_rows : Int
  skip_rows : Int
  num_read : Nat
  exhausted : Bool
  input : List (Option String)
deriving DecidableEq, Repr

namespace PipeReader

/-- The body of the `for i in xrange(min(max_rows, self.chunk_size))` loop of
`PipeReader.read_rows`. Note the skip condition of the source:
`if self.header or self.num_read < self.skip_rows`. -/
def read_rows_loop : Nat → PipeReader → List String → List String × PipeReader
  | 0, st, acc => (acc, st)
  | fuel + 1, st, acc =>
    match st.input with
    | [] => (acc, st)
    | msg :: rest =>
      let st := { st with input := rest }
      match msg with
      | none => (acc, { st with exhausted := true })
      | some row =>
        let st := { st with num_read := st.num_read + 1 }
        if 0 ≤ st.max_rows ∧ st.max_rows < (st.num_read : Int) then
          (acc, { st with exhausted := true })
        else if st.header ∨ (st.num_read : Int) < st.skip_rows then
          read_rows_loop fuel { st with header := false } acc
        else
          read_rows_loop fuel st (acc ++ [row])

/-- Models `PipeReader.read_rows`. -/
def read_rows (st : PipeReader) (max_rows : Int) : List String × PipeReader :=
  read_rows_loop (min max_rows (st.chunk_size : Int)).toNat st []

end PipeReader

/-! ## FeedingProcess (copyutil.py lines 1128-1199) -/

/-- Values stored in the chunk dict sent by `FeedingProcess.send_chunk`. -/
inductive PyVal where
  | vnat (n : Nat)
  | vrows (rows : List String)
deriving DecidableEq, Repr

/-- Models the dict literal `{'id': self.chunk_id, 'rows': rows, 'imported': 0}`
of `send_chunk` (line 1190). -/
def chunk_dict (chunk_id : Nat) (rows : List String) : List (String × PyVal) :=
  [("id", PyVal.vnat chunk_id), ("rows", PyVal.vrows rows),
   ("imported", PyVal.vnat 0)]

/-- State of `FeedingProcess` together with its `send_meter`. `out` records
every chunk dict sent to a worker channel, paired with the `max_rows` budget
(`ingest_rate - send_meter.current_record`) in force when it was read; `clock`
is an oracle saying, for each `maybe_update` check, whether `update_interval`
wall-clock time had elapsed. -/
structure FeedingProcess where
  reader : FilesReader
  ingest_rate : Int
  chunk_id : Nat
  meter_current : Nat
  meter_total : Nat
  sent : Nat
  out : List (List (String × PyVal) × Int)
  clock : List Bool
deriving Repr

namespace FeedingProcess

/-- Models `RateMeter.maybe_update(sleep=False)` for the send meter: a no-op
when `current_record == 0`; otherwise, when the update interval has elapsed
(per the clock oracle), roll `current_record` into `total_records`. -/
def meter_maybe_update (st : FeedingProcess) : FeedingProcess :=
  if st.meter_current = 0 then st
  else
    match st.clock with
    | [] => st
    | elapsed :: rest =>
      let st := { st with clock := rest }
      if elapsed then
        { st with meter_total := st.meter_total + st.meter_current,
                  meter_current := 0 }
      else st

/-- Models `RateMeter.increment(n)`: add to `current_record`, then
`maybe_update()`. -/
def meter_increment (st : FeedingProcess) (n : Nat) : FeedingProcess :=
  meter_maybe_update { st with meter_current := st.meter_current + n }

/-- Models `send_chunk` (lines 1186-1191): bump `chunk_id`, meter the rows,
send the chunk dict; the caller adds the returned row count to `sent`. -/
def send_chunk (st : FeedingProcess) (rows : List String) (budget : Int) :
    FeedingProcess :=
  let st := { st with chunk_id := st.chunk_id + 1 }
  let num_rows := rows.length
  let st := meter_increment st num_rows
  { st with out := st.out ++ [(chunk_dict st.chunk_id rows, budget)],
            sent := st.sent + num_rows }

/-- One iteration of the `for ch in channels` body of `inner_run`
(lines 1164-1175): compute the rate budget, yield when it is exhausted, else
read up to `max_rows` rows and send them as a chunk when non-empty. -/
def feed_channel (st : FeedingProcess) : FeedingProcess :=
  let max_rows : Int := st.ingest_rate - (st.meter_current : Int)
  if max_rows ≤ 0 then meter_maybe_update st
  else
    let (rows, rd) := st.reader.read_rows max_rows
    let st := { st with reader := rd }
    if rows.isEmpty then st
    else send_chunk st rows max_rows

/-- The `for ch in channels` loop, breaking as soon as the reader is
exhausted. -/
def feed_channels : Nat → FeedingProcess → FeedingProcess
  | 0, st => st
  | n + 1, st =>
    let st := feed_channel st
    if st.reader.exhausted then st
    else feed_channels n st

/-- The `while not reader.exhausted` loop of `inner_run`, fuelled. -/
def inner_run : Nat → Nat → FeedingProcess → FeedingProcess
  | 0, _, st => st
  | fuel + 1, nchannels, st =>
    if st.reader.exhausted then st
    else inner_run fuel nchannels (feed_channels nchannels st)

/-- Models `FeedingProcess.inner_run` from a fresh feeder (`chunk_id = 0`,
empty meter) reading from files: `reader.start()` then the send loop. -/
def run_feeder (fuel nchannels : Nat) (reader : FilesReader)
    (ingest_rate : Int) (clock : List Bool) : FeedingProcess :=
  inner_run fuel nchannels
    { reader := reader.start, ingest_rate := ingest_rate, chunk_id := 0,
      meter_current := 0, meter_total := 0, sent := 0, out := [],
      clock := clock }

/-- Well-formedness of one sent chunk record: exactly the keys `id`, `rows`,
`imported`, with `imported = 0` and a non-empty row list bounded by the chunk
size and by the rate budget that was in force. -/
def good_chunk (chunk_size : Nat) (entry : List (String × PyVal) × Int) :
    Bool :=
  match entry.1 with
  | [(k1, PyVal.vnat _), (k2, PyVal.vrows rows), (k3, PyVal.vnat imp)] =>
      k1 == "id" && k2 == "rows" && k3 == "imported" && imp == 0 &&
        !rows.isEmpty && decide (rows.length ≤ chunk_size) &&
          decide ((rows.length : Int) ≤ entry.2)
  | _ => false

/-- The `id` values of the sent chunks, in send order. -/
def chunk_ids (out : List (List (String × PyVal) × Int)) : List (Option PyVal) :=
  out.map (fun e => List.lookup "id" e.1)

/-- Run invariant of the feeder: `chunk_id` counts the sent chunks, every
sent chunk is well-formed, the ids are exactly `1, 2, 3, ...` in send order,
and the reader's configured chunk size never changes. -/
def feeder_inv (cs : Nat) (st : FeedingProcess) : Prop :=
  st.chunk_id = st.out.length ∧
  st.out.all (good_chunk cs) = true ∧
  chunk_ids st.out =
    (List.range' 1 st.out.length).map (fun i => some (PyVal.vnat i)) ∧
  st.reader.chunk_size = cs

end FeedingProcess

/-! ## ImportProcess chunk processing (copyutil.py lines 2042-2262) -/

/-- A chunk as held by an import worker. `chunk['rows']` is a list of raw CSV
lines when the chunk arrives and is overwritten with the converted rows by
`inner_run` (line 2063), hence the row type parameter. -/
structure Chunk (ρ : Type) where
  id : Nat
  rows : List ρ
  imported : Nat
deriving DecidableEq, Repr

/-- Messages an import worker sends on its return channel. -/
inductive WorkerMsg where
  | taskError (name : String) (msg : String) (rows : List (List String))
  | processResult (imported : Nat)
deriving DecidableEq, Repr

/-- Recognizes per-chunk `ImportProcessResult` progress messages. -/
def WorkerMsg.isProgress : WorkerMsg → Bool
  | .processResult _ => true
  | _ => false

/-- Insertion-ordered model of `defaultdict(list)` indexing:
`groups[k].append(x)`. -/
def add_to_group [DecidableEq κ] (groups : List (κ × List α)) (k : κ) (x : α) :
    List (κ × List α) :=
  if groups.any (fun g => decide (g.1 = k)) then
    groups.map (fun g => if g.1 = k then (g.1, g.2 ++ [x]) else g)
  else groups ++ [(k, [x])]

/-- Insertion-ordered model of `groups[k].extend(xs)`. -/
def extend_group [DecidableEq κ] (groups : List (κ × List α)) (k : κ)
    (xs : List α) : List (κ × List α) :=
  if groups.any (fun g => decide (g.1 = k)) then
    groups.map (fun g => if g.1 = k then (g.1, g.2 ++ xs) else g)
  else groups ++ [(k, xs)]

/-- Models the slicing `for i in xrange(0, len(rows), max_batch_size)` into
`rows[i:i + max_batch_size]` pieces (`go` is fuelled by the list length;
`max_batch_size` is at least 1 in any real configuration). -/
def chunks_of_go (n : Nat) : Nat → List α → List (List α)
  | _, [] => []
  | 0, xs => [xs]
  | fuel + 1, xs => xs.take n :: chunks_of_go n fuel (xs.drop n)

/-- Slices a list into pieces of at most `n` elements. -/
def chunks_of (n : Nat) (xs : List α) : List (List α) :=
  chunks_of_go n xs.length xs

namespace ImportProcess

/-- Models `ImportProcess.update_chunk` (lines 2258-2262): credit the given
rows to `chunk['imported']` and emit one `ImportProcessResult` when it now
equals `len(chunk['rows'])`. -/
def update_chunk (rows : List α) (chunk : Chunk ρ) : Chunk ρ × List WorkerMsg :=
  let num_chunk_rows := chunk.rows.length
  let chunk := { chunk with imported := chunk.imported + rows.length }
  (chunk,
    if chunk.imported = num_chunk_rows then [.processResult num_chunk_rows]
    else [])

/-- The per-message error groups built by `convert_rows`
(`errors[err.message].append(r)`). -/
def collect_errors (convert_row : List String → Except String (List String))
    (rows : List (List String)) : List (String × List (List String)) :=
  rows.foldl
    (fun errors r =>
      match convert_row r with
      | .ok _ => errors
      | .error msg => add_to_group errors msg r)
    []

/-- Models `ImportProcess.convert_rows` (lines 2131-2158). `parse` stands for
the external `csv.reader` tokenizer composed with `filter_row_values`;
`convert_row` stands for `ImportConversion.convert_row`, returning the
converted row or the `ParseError` message it raised. For every error group an
`ImportTaskError` is sent and `update_chunk` is called with the failed rows -
note that at this point `chunk['rows']` still holds the raw lines. Returns
(converted rows, updated chunk, messages sent); `filter(None, ...)` keeps
exactly the successful conversions (converted rows are non-empty lists). -/
def convert_rows (parse : String → List String)
    (convert_row : List String → Except String (List String))
    (chunk : Chunk String) :
    List (List String) × Chunk String × List WorkerMsg :=
  let rows := chunk.rows.map parse
  let errors := collect_errors convert_row rows
  let converted := rows.filterMap (fun r => (convert_row r).toOption)
  let (chunk, msgs) := errors.foldl
    (fun (acc : Chunk String × List WorkerMsg) e =>
      let msgs := acc.2 ++ [WorkerMsg.taskError "ParseError" e.1 e.2]
      let (chunk, more) := update_chunk e.2 acc.1
      (chunk, msgs ++ more))
    (chunk, [])
  (converted, chunk, msgs)

/-- A batch as built by `make_batch` (line 2184): chunk id, rows,
`attempts = 1`. -/
structure Batch where
  id : Nat
  rows : List (List String)
  attempts : Nat
deriving DecidableEq, Repr

/-- Models `ImportProcess.make_batch`. -/
def make_batch (batch_id : Nat) (rows : List (List String)) : Batch :=
  { id := batch_id, rows := rows, attempts := 1 }

/-- Models `ImportProcess.split_into_batches` (lines 2186-2236).
`ring_pos_of` stands for the composition of `get_row_partition_key_values`,
`pk_to_token_value` and `get_ring_pos` (total here: pk serialization errors
are not modelled); `replica_of` stands for
`filter_replicas(replicas[ring_pos])`. Ring positions holding more than
`min_batch_size` rows are sliced into `max_batch_size` batches with all their
replicas; smaller groups are pooled under their first replica and then
sliced. -/
def split_into_batches (ring_pos_of : List String → Nat)
    (replica_of : Nat → List String) (min_batch_size max_batch_size : Nat)
    (chunk : Chunk (List String)) : List (List String × Batch) :=
  let rows_by_ring_pos :=
    chunk.rows.foldl (fun g r => add_to_group g (ring_pos_of r) r) []
  let batches_big :=
    (rows_by_ring_pos.filter (fun g => g.2.length > min_batch_size)).flatMap
      (fun g => (chunks_of max_batch_size g.2).map
        (fun rs => (replica_of g.1, make_batch chunk.id rs)))
  let rows_by_replica :=
    (rows_by_ring_pos.filter (fun g => ¬ g.2.length > min_batch_size)).foldl
      (fun pools g => extend_group pools ((replica_of g.1).take 1) g.2) []
  let batches_small :=
    rows_by_replica.flatMap
      (fun p => (chunks_of max_batch_size p.2).map
        (fun rs => (p.1, make_batch chunk.id rs)))
  batches_big ++ batches_small

/-- The success path of the batch callbacks: every batch's
`result_callback(_, batch, chunk)` calls `update_chunk(batch['rows'], chunk)`
(line 2238-2239); driver callbacks are serialized. -/
def run_success_callbacks (batches : List (List String × Batch))
    (chunk : Chunk (List String)) : Chunk (List String) × List WorkerMsg :=
  batches.foldl
    (fun (acc : Chunk (List String) × List WorkerMsg) b =>
      let (chunk, more) := update_chunk b.2.rows acc.1
      (chunk, acc.2 ++ more))
    (chunk, [])

/-- Models the processing of one received chunk by `inner_run`
(lines 2057-2068) in the run where every batch insert succeeds:
`chunk['rows'] = convert_rows(conv, chunk)` (replacing the raw lines with the
converted rows), then `split_into_batches` and one successful
`result_callback` per batch. Returns the final chunk and every message sent
on the return channel. -/
def process_chunk_all_success (parse : String → List String)
    (convert_row : List String → Except String (List String))
    (ring_pos_of : List String → Nat) (replica_of : Nat → List String)
    (min_batch_size max_batch_size : Nat) (chunk : Chunk String) :
    Chunk (List String) × List WorkerMsg :=
  let (converted, chunk1, msgs1) := convert_rows parse convert_row chunk
  let chunk2 : Chunk (List String) :=
    { id := chunk1.id, rows := converted, imported := chunk1.imported }
  let batches :=
    split_into_batches ring_pos_of replica_of min_batch_size max_batch_size
      chunk2
  let (chunk3, msgs2) := run_success_callbacks batches chunk2
  (chunk3, msgs1 ++ msgs2)

end ImportProcess

/-! ## ExportTask: range generation and the coordinator loop
(copyutil.py lines 499-732) -/

/-- A cluster host as seen through the driver metadata. -/
structure Replica where
  address : String
  is_up : Bool
  datacenter : String
deriving DecidableEq, Repr

/-- The per-range record `{'hosts': ..., 'attempts': 0, 'rows': 0}` built by
`make_range_data` (line 598) and mutated by the export coordinator. -/
structure RangeData where
  hosts : List String
  attempts : Nat
  rows : Nat
deriving DecidableEq, Repr

namespace ExportTask

/-- Models the inner `make_range(prev, curr)` of `get_ranges`
(lines 570-588). The guards `if begin_token:` / `if end_token:` use Python
truthiness (`None` and `0` skip the clip); the comparisons are Python 2
mixed comparisons (`None` below every integer). -/
def make_range (begin_token end_token : Option Int) (prev curr : Option Int) :
    Option (Option Int × Option Int) :=
  let ret := (prev, curr)
  let step1 : Option (Option Int × Option Int) :=
    if truthy begin_token then
      if pyLt ret.2 begin_token then none
      else if pyLt ret.1 begin_token then some (begin_token, ret.2)
      else some ret
    else some ret
  match step1 with
  | none => none
  | some ret =>
    if truthy end_token then
      if pyGt ret.1 end_token then none
      else if pyGt ret.2 end_token then some (ret.1, end_token)
      else some ret
    else some ret

/-- Models the inner `make_range_data(replicas)` of `get_ranges`
(lines 590-598): keep up replicas of the local datacenter, falling back to
the shell host. -/
def make_range_data (hostname local_dc : String)
    (replicas : Option (List Replica)) : RangeData :=
  let hosts := match replicas with
    | none => []
    | some rs =>
        (rs.filter (fun r => r.is_up && r.datacenter == local_dc)).map
          (fun r => r.address)
  { hosts := if hosts.isEmpty then [hostname] else hosts,
    attempts := 0, rows := 0 }

/-- The `for token, replicas in ring` loop of `get_ranges` (lines 625-637):
skip the ring minimum, clip each `(previous, token)` pair against the window,
record emitted ranges and advance `previous` only on emission. Returns the
final `previous` and the emitted ranges in emission order. -/
def ranges_loop (begin_token end_token : Option Int) (min_token : Int)
    (hostname local_dc : String) :
    List (Int × List Replica) → Option Int →
    List ((Option Int × Option Int) × RangeData) →
    Option Int × List ((Option Int × Option Int) × RangeData)
  | [], previous, acc => (previous, acc)
  | (t, replicas) :: rest, previous, acc =>
    if t = min_token then
      ranges_loop begin_token end_token min_token hostname local_dc rest
        previous acc
    else
      match make_range begin_token end_token previous (some t) with
      | none =>
          ranges_loop begin_token end_token min_token hostname local_dc rest
            previous acc
      | some rng =>
          ranges_loop begin_token end_token min_token hostname local_dc rest
            (some t)
            (acc ++ [(rng, make_range_data hostname local_dc (some replicas))])

/-- Models `ExportTask.get_ranges` (lines 550-646). `token_map_present`
stands for `shell.conn.metadata.token_map is not None`; `min_token` is
`get_min_token()` (`-2^63` for Murmur3, `-1` for Random, `None` otherwise);
`ring` is the sorted ring. The Python dict of ranges is modelled as the
insertion-ordered association list of its entries. -/
def get_ranges (hostname local_dc : String) (token_map_present : Bool)
    (min_token : Option Int) (begin_token end_token : Option Int)
    (ring : List (Int × List Replica)) :
    List ((Option Int × Option Int) × RangeData) :=
  if truthy begin_token ∧ pyLt begin_token min_token then []
  else if truthy begin_token ∧ truthy end_token ∧ pyGt begin_token end_token
    then []
  else
    match token_map_present, min_token with
    | false, _ =>
        [((begin_token, end_token), make_range_data hostname local_dc none)]
    | true, none =>
        [((begin_token, end_token), make_range_data hostname local_dc none)]
    | true, some m =>
      match ring with
      | [] =>
          [((begin_token, end_token), make_range_data hostname local_dc none)]
      | [(_, replicas)] =>
          [((begin_token, end_token),
            make_range_data hostname local_dc (some replicas))]
      | r1 :: r2 :: rest =>
        let first_range_data := make_range_data hostname local_dc (some r1.2)
        let (previous, acc) :=
          ranges_loop begin_token end_token m hostname local_dc
            (r1 :: r2 :: rest) none []
        if previous ≠ none ∧ (¬ truthy end_token ∨ pyLt previous end_token)
        then acc ++ [((previous, end_token), first_range_data)]
        else acc

/-- The ranges emitted by the `for token, replicas in ring` loop from a given
`previous` state (analysis helper: the loop run with an empty accumulator). -/
def loop_emitted (begin_token end_token : Option Int) (min_token : Int)
    (hostname local_dc : String) (ring : List (Int × List Replica))
    (previous : Option Int) :
    List ((Option Int × Option Int) × RangeData) :=
  (ranges_loop begin_token end_token min_token hostname local_dc ring
    previous []).2

/-- The final `previous` after the ring loop (analysis helper). -/
def loop_last (begin_token end_token : Option Int) (min_token : Int)
    (hostname local_dc : String) (ring : List (Int × List Replica))
    (previous : Option Int) : Option Int :=
  (ranges_loop begin_token end_token min_token hostname local_dc ring
    previous []).1

/-- Membership of a token in an emitted range key, as the exported query
reads it: `prepare_export_query` (lines 1552-1568) adds `token(pk) > s` when
the low bound *is not None* and `token(pk) <= e` when the high bound is not
`None`. -/
def mem_range (r : Option Int × Option Int) (t : Int) : Bool :=
  (match r.1 with
    | none => true
    | some l => l < t) &&
  (match r.2 with
    | none => true
    | some h => t ≤ h)

/-- Two range keys are disjoint when no token lies in both. -/
def disjoint_ranges (k1 k2 : Option Int × Option Int) : Prop :=
  ∀ x : Int, ¬(mem_range k1 x = true ∧ mem_range k2 x = true)

/-- The caller-supplied window `(begintoken, endtoken]` as `make_range`
understands it: an unset (or zero, by truthiness) bound is no constraint. -/
def in_window (begin_token end_token : Option Int) (t : Int) : Bool :=
  (if truthy begin_token then (begin_token.getD 0) < t else true) &&
  (if truthy end_token then t ≤ end_token.getD 0 else true)

/-- Bump the `attempts` of one range key in the coordinator's dict
(`ranges[token_range]['attempts'] += 1`). -/
def bump_attempts (ranges : List ((Option Int × Option Int) × RangeData))
    (k : Option Int × Option Int) :
    List ((Option Int × Option Int) × RangeData) :=
  ranges.map (fun kv =>
    (kv.1,
     if kv.1 = k then { kv.2 with attempts := kv.2.attempts + 1 } else kv.2))

/-- Models `ExportTask.send_work` (lines 664-670): each listed range is sent
to a worker channel (round-robin; the channel index does not touch the range
state) and its `attempts` is incremented. Returns the new dict and the list
of dispatched ranges. -/
def send_work (ranges : List ((Option Int × Option Int) × RangeData))
    (tokens_to_send : List (Option Int × Option Int)) :
    List ((Option Int × Option Int) × RangeData) ×
      List (Option Int × Option Int) :=
  (tokens_to_send.foldl bump_attempts ranges, tokens_to_send)

/-- Coordinator state during `export_records`. -/
structure ExportState where
  ranges : List ((Option Int × Option Int) × RangeData)
  succeeded : Nat
  failed : Nat
deriving Repr

/-- The messages received from worker processes in `export_records`:
`(None, None)`, `(None, exception)`, `(range, exception)`,
`(range, (data, num))`. -/
inductive ExportMsg where
  | finished
  | workerError
  | rangeError (k : Option Int × Option Int)
  | rangeResult (k : Option Int × Option Int) (num : Nat)
deriving Repr

/-- Dict lookup `ranges[token_range]` (the key always exists in the code;
a default is returned here to stay total). -/
def lookup_range (ranges : List ((Option Int × Option Int) × RangeData))
    (k : Option Int × Option Int) : RangeData :=
  ((ranges.find? (fun kv => decide (kv.1 = k))).map (fun kv => kv.2)).getD
    { hosts := [], attempts := 0, rows := 0 }

/-- Add received rows to `ranges[token_range]['rows']`. -/
def add_rows (ranges : List ((Option Int × Option Int) × RangeData))
    (k : Option Int × Option Int) (num : Nat) :
    List ((Option Int × Option Int) × RangeData) :=
  ranges.map (fun kv =>
    (kv.1, if kv.1 = k then { kv.2 with rows := kv.2.rows + num } else kv.2))

/-- Models the body of the receive loop of `export_records` (lines 694-718)
for one received message. Returns the new state and the ranges re-dispatched
to workers by this step: a `(range, error)` message re-sends the range iff
`attempts < max_attempts and rows == 0`, otherwise counts it as failed. -/
def export_step (max_attempts : Nat) (st : ExportState) (msg : ExportMsg) :
    ExportState × List (Option Int × Option Int) :=
  match msg with
  | .finished => ({ st with succeeded := st.succeeded + 1 }, [])
  | .workerError => (st, [])
  | .rangeError k =>
      let d := lookup_range st.ranges k
      if d.attempts < max_attempts ∧ d.rows = 0 then
        let (ranges, sent) := send_work st.ranges [k]
        ({ st with ranges := ranges }, sent)
      else
        ({ st with failed := st.failed + 1 }, [])
  | .rangeResult k num =>
      ({ st with ranges := add_rows st.ranges k num }, [])

end ExportTask

end Copyutil

/-! # Theorems -/

open Copyutil

/-- Claim C4: for every `retry_num` and either timeout kind, the policy
returns `(RETRY, consistency)` after sleeping the uniformly drawn
`randrange(0, 2^(retry_num+1))` seconds when `retry_num < max_attempts`,
returns `(RETHROW, None)` once `retry_num >= max_attempts`, and read and
write timeouts use the identical formula. -/
theorem C4_exp_backoff_retry (max_attempts retry_num rand_val consistency : Nat)
    (hrand : rand_val < 2 ^ (retry_num + 1)) :
    (retry_num < max_attempts →
      ExpBackoffRetryPolicy.on_read_timeout max_attempts retry_num rand_val
          consistency =
        (RetryDecision.RETRY, some consistency, rand_val) ∧
        rand_val < 2 ^ (retry_num + 1))
    ∧ (max_attempts ≤ retry_num →
      ExpBackoffRetryPolicy.on_read_timeout max_attempts retry_num rand_val
          consistency =
        (RetryDecision.RETHROW, none, 0))
    ∧ ExpBackoffRetryPolicy.on_read_timeout max_attempts retry_num rand_val
          consistency =
        ExpBackoffRetryPolicy.on_write_timeout max_attempts retry_num rand_val
          consistency := by
  refine ⟨fun h => ⟨?_, hrand⟩, fun h => ?_, rfl⟩
  · have hge : ¬ retry_num ≥ max_attempts := by omega
    simp only [ExpBackoffRetryPolicy.on_read_timeout,
      ExpBackoffRetryPolicy.handle_timeout, ExpBackoffRetryPolicy.backoff,
      hge, if_false]
    split_ifs with h1 h2
    · simp
    · have h0 : rand_val = 0 := by omega
      simp [h0]
    · exfalso; omega
  · have hge : retry_num ≥ max_attempts := h
    simp only [ExpBackoffRetryPolicy.on_read_timeout,
      ExpBackoffRetryPolicy.handle_timeout, ExpBackoffRetryPolicy.backoff,
      hge, if_true]
    norm_num

/-- Witness for C4 at `max_attempts = 5`, `retry_num = 1`, `rand_val = 3`,
`consistency = 7`. -/
theorem C4_exp_backoff_retry_witness :
    ExpBackoffRetryPolicy.on_read_timeout 5 1 3 7 =
      (RetryDecision.RETRY, some 7, 3) :=
  ((C4_exp_backoff_retry 5 1 3 7 (by norm_num)).1 (by norm_num)).1

/-- Claim C9: the boolean import converter returns true iff the input equals
the first configured boolstyle string case-insensitively, returns false for
every other string without error, and never consults the second boolstyle
string. -/
theorem C9_convert_bool (s0 s1 s1' v : String) :
    (ImportConversion.convert_bool [s0, s1] v = true ↔
      v.toLower = s0.toLower)
    ∧ (ImportConversion.convert_bool [s0, s1] v = false ↔
      v.toLower ≠ s0.toLower)
    ∧ ImportConversion.convert_bool [s0, s1] v =
        ImportConversion.convert_bool [s0, s1'] v := by
  refine ⟨?_, ?_, rfl⟩ <;>
    simp [ImportConversion.convert_bool]

/-- Claim C8: `is_parse_error` recognizes exactly the five name prefixes;
`handle_error` routes parse errors to the parse counter and the error file,
insert errors to the insert counter and to the error file only when final;
`max_exceeded` is the disjunction of the two chained comparisons, so a
maximum of `-1` never triggers shutdown. -/
theorem C8_error_handler (h : ImportErrorHandler) (err : ImportTaskError) :
    (err.is_parse_error = true ↔
      (str_starts_with err.name "ValueError" = true ∨
       str_starts_with err.name "TypeError" = true ∨
       str_starts_with err.name "ParseError" = true ∨
       str_starts_with err.name "IndexError" = true ∨
       str_starts_with err.name "ReadError" = true))
    ∧ (err.is_parse_error = true →
        (h.handle_error err).parse_errors = h.parse_errors + err.rows.length ∧
        (h.handle_error err).insert_errors = h.insert_errors ∧
        (h.handle_error err).err_file = h.err_file ++ err.rows)
    ∧ (err.is_parse_error = false →
        (h.handle_error err).insert_errors =
          h.insert_errors + err.rows.length ∧
        (h.handle_error err).parse_errors = h.parse_errors ∧
        (h.handle_error err).err_file =
          (if err.final then h.err_file ++ err.rows else h.err_file))
    ∧ (h.max_exceeded = true ↔
        ((h.insert_errors : Int) > h.max_insert_errors ∧
          h.max_insert_errors ≥ 0) ∨
        ((h.parse_errors : Int) > h.max_parse_errors ∧
          h.max_parse_errors ≥ 0))
    ∧ (h.max_insert_errors = -1 → h.max_parse_errors = -1 →
        h.max_exceeded = false) := by
  refine ⟨?_, fun hp => ?_, fun hp => ?_, ?_, fun h1 h2 => ?_⟩
  · simp [ImportTaskError.is_parse_error, or_assoc]
  · simp [ImportErrorHandler.handle_error, hp,
      ImportErrorHandler.add_failed_rows]
  · cases hf : err.final <;>
      simp [ImportErrorHandler.handle_error, hp,
        ImportErrorHandler.add_failed_rows, hf]
  · unfold ImportErrorHandler.max_exceeded
    split_ifs with ha hb
    · exact iff_of_true rfl (Or.inl ha)
    · exact iff_of_true rfl (Or.inr hb)
    · refine iff_of_false (by simp) ?_
      rintro (hc | hc)
      · exact ha hc
      · exact hb hc
  · unfold ImportErrorHandler.max_exceeded
    split_ifs with ha hb
    · omega
    · omega
    · rfl

/-- Witness for C8: a `ParseError` with one failed row against fresh
counters with both maxima at `-1`. -/
theorem C8_error_handler_witness :
    (ImportErrorHandler.handle_error
      { max_parse_errors := -1, max_insert_errors := -1, parse_errors := 0,
        insert_errors := 0, num_rows_failed := 0, err_file := [] }
      { name := "ParseError - bad", msg := "m", rows := [["r"]],
        attempts := 1, final := true }).parse_errors = 1 ∧
    ImportErrorHandler.max_exceeded
      { max_parse_errors := -1, max_insert_errors := -1, parse_errors := 0,
        insert_errors := 0, num_rows_failed := 0, err_file := [] } = false := by
  constructor
  · have := ((C8_error_handler
      { max_parse_errors := -1, max_insert_errors := -1, parse_errors := 0,
        insert_errors := 0, num_rows_failed := 0, err_file := [] }
      { name := "ParseError - bad", msg := "m", rows := [["r"]],
        attempts := 1, final := true }).2.1 (by decide)).1
    simpa using this
  · exact (C8_error_handler
      { max_parse_errors := -1, max_insert_errors := -1, parse_errors := 0,
        insert_errors := 0, num_rows_failed := 0, err_file := [] }
      { name := "x", msg := "m", rows := [], attempts := 1,
        final := true }).2.2.2.2 rfl rfl

/-- Claim C5, evaluated at the failing input: the fallback pattern contains
the literal quoted `'T'` (not a bare `T`) and `p.match` has no end anchor, so
`2016-01-02T03:04:05` matches on its date part alone and converts to local
midnight - the hour, minute and second are silently dropped instead of being
honoured as the claim states. -/
theorem C5_datetime_T_separator_dropped :
    Copyutil.convert_datetime_fallback 0 "2016-01-02T03:04:05" =
      Except.ok 1451692800000 ∧
    Copyutil.timegm 2016 1 2 0 0 0 * 1000 = 1451692800000 ∧
    Copyutil.timegm 2016 1 2 3 4 5 * 1000 = 1451703845000 ∧
    Copyutil.convert_datetime_fallback 0 "2016-01-02T03:04:05" ≠
      Except.ok 1451703845000 := by
  have h1 : Copyutil.convert_datetime_fallback 0 "2016-01-02T03:04:05" =
      Except.ok 1451692800000 := by rfl
  refine ⟨h1, by decide, by decide, ?_⟩
  rw [h1]
  simp

/-- Claim C7, evaluated at the failing input: with `skiprows = 1` and no
header, `FilesReader` (condition `num_read > skip_rows`) skips the first row
and returns `["b"]`, but `PipeReader` (condition `num_read < skip_rows`)
returns `["a", "b"]` - row 1 is returned, contradicting the claim that rows
1..k are never returned by either reader. -/
theorem C7_pipe_reader_skiprows_off_by_one :
    ((FilesReader.start
        { chunk_size := 5000, header := false, max_rows := -1, skip_rows := 1,
          sources := [["a", "b"]], num_sources := 0, current_source := none,
          num_read := 0 }).read_rows 10).1 = ["b"] ∧
    (PipeReader.read_rows
        { chunk_size := 5000, header := false, max_rows := -1, skip_rows := 1,
          num_read := 0, exhausted := false,
          input := [some "a", some "b", none] } 10).1 = ["a", "b"] := by
  refine ⟨by decide, by decide⟩

/-- Claim C1, evaluated at the failing input: a chunk of two rows where one
row fails parsing and the other imports successfully. `convert_rows` credits
the failed row against the raw row count (2), then `chunk['rows']` is
replaced by the single converted row, so the success callback compares
`imported = 2` against `len(chunk['rows']) = 1`: no `ImportProcessResult` is
ever emitted for the chunk, contradicting the claimed exactly-one progress
message. -/
theorem C1_mixed_chunk_emits_no_progress :
    (ImportProcess.process_chunk_all_success (fun s => [s])
        (fun r => if r = ["bad"] then Except.error "boom" else Except.ok r)
        (fun _ => 0) (fun _ => ["h1"]) 10 20
        { id := 1, rows := ["bad", "good"], imported := 0 }).2.countP
        WorkerMsg.isProgress = 0 ∧
    (ImportProcess.process_chunk_all_success (fun s => [s])
        (fun r => if r = ["bad"] then Except.error "boom" else Except.ok r)
        (fun _ => 0) (fun _ => ["h1"]) 10 20
        { id := 1, rows := ["bad", "good"], imported := 0 }).1.imported = 2 ∧
    (ImportProcess.process_chunk_all_success (fun s => [s])
        (fun r => if r = ["bad"] then Except.error "boom" else Except.ok r)
        (fun _ => 0) (fun _ => ["h1"]) 10 20
        { id := 1, rows := ["bad", "good"], imported := 0 }).1.rows.length =
      1 := by
  refine ⟨by decide, by decide, by decide⟩

/-- Helper: looking a key up after a key-preserving value rewrite of the
ranges dict. -/
theorem exp_lookup_map (ranges : List ((Option Int × Option Int) × RangeData))
    (g : (Option Int × Option Int) × RangeData → RangeData)
    (q : Option Int × Option Int) :
    ExportTask.lookup_range (ranges.map (fun kv => (kv.1, g kv))) q =
      ((ranges.find? (fun kv => decide (kv.1 = q))).map g).getD
        { hosts := [], attempts := 0, rows := 0 } := by
  induction ranges with
  | nil => rfl
  | cons kv rest ih =>
    by_cases hq : kv.1 = q
    · simp [ExportTask.lookup_range, List.find?_cons, hq]
    · simp only [List.map_cons, ExportTask.lookup_range, List.find?_cons,
        hq, decide_eq_false, Bool.false_eq_true, if_false]
      simpa [ExportTask.lookup_range] using ih

/-- Helper: `send_work`'s bump never decreases any attempts counter. -/
theorem exp_attempts_mono_bump
    (ranges : List ((Option Int × Option Int) × RangeData))
    (k q : Option Int × Option Int) :
    (ExportTask.lookup_range ranges q).attempts ≤
      (ExportTask.lookup_range (ExportTask.bump_attempts ranges k) q).attempts := by
  unfold ExportTask.bump_attempts
  rw [exp_lookup_map]
  unfold ExportTask.lookup_range
  cases hf : ranges.find? (fun kv => decide (kv.1 = q)) with
  | none => simp [hf]
  | some kv =>
    simp only [hf, Option.map_some', Option.getD_some]
    split_ifs <;> simp

/-- Helper: recording received rows does not change any attempts counter. -/
theorem exp_attempts_add_rows
    (ranges : List ((Option Int × Option Int) × RangeData))
    (k : Option Int × Option Int) (n : Nat) (q : Option Int × Option Int) :
    (ExportTask.lookup_range (ExportTask.add_rows ranges k n) q).attempts =
      (ExportTask.lookup_range ranges q).attempts := by
  unfold ExportTask.add_rows
  rw [exp_lookup_map]
  unfold ExportTask.lookup_range
  cases hf : ranges.find? (fun kv => decide (kv.1 = q)) with
  | none => simp [hf]
  | some kv =>
    simp only [hf, Option.map_some', Option.getD_some]
    split_ifs <;> simp

/-- Claim C2: in the export coordinator's receive loop, no step ever
decreases a range's attempts counter, and a `(range, error)` message resends
the range to a worker iff `attempts < max_attempts and rows == 0`; otherwise
nothing is resent and the range is counted as failed (so a range with
`rows > 0` is never re-dispatched). -/
theorem C2_export_retry_bookkeeping (max_attempts : Nat)
    (st : ExportTask.ExportState) :
    (∀ (msg : ExportTask.ExportMsg) (k : Option Int × Option Int),
      (ExportTask.lookup_range st.ranges k).attempts ≤
        (ExportTask.lookup_range
          (ExportTask.export_step max_attempts st msg).1.ranges k).attempts)
    ∧ (∀ k : Option Int × Option Int,
        ((ExportTask.lookup_range st.ranges k).attempts < max_attempts ∧
            (ExportTask.lookup_range st.ranges k).rows = 0 →
          (ExportTask.export_step max_attempts st
            (ExportTask.ExportMsg.rangeError k)).2 = [k] ∧
          (ExportTask.export_step max_attempts st
            (ExportTask.ExportMsg.rangeError k)).1.failed = st.failed)
        ∧ (¬ ((ExportTask.lookup_range st.ranges k).attempts < max_attempts ∧
              (ExportTask.lookup_range st.ranges k).rows = 0) →
          (ExportTask.export_step max_attempts st
            (ExportTask.ExportMsg.rangeError k)).2 = [] ∧
          (ExportTask.export_step max_attempts st
            (ExportTask.ExportMsg.rangeError k)).1.failed = st.failed + 1)) := by
  constructor
  · intro msg q
    cases msg with
    | finished => simp [ExportTask.export_step]
    | workerError => simp [ExportTask.export_step]
    | rangeError k =>
      simp only [ExportTask.export_step, ExportTask.send_work, List.foldl]
      split_ifs with hc
      · exact exp_attempts_mono_bump st.ranges k q
      · simp
    | rangeResult k n =>
      simp only [ExportTask.export_step]
      exact (exp_attempts_add_rows st.ranges k n q).ge
  · intro k
    constructor
    · intro hc
      simp [ExportTask.export_step, ExportTask.send_work, hc]
    · intro hc
      simp [ExportTask.export_step, ExportTask.send_work, hc]

/-- Helper: `next_source` does not change the configured chunk size. -/
theorem files_next_source_chunk_size (st : FilesReader) :
    st.next_source.2.chunk_size = st.chunk_size := by
  unfold FilesReader.next_source FilesReader.close_current_source
  cases st.sources <;> rfl

/-- Helper: the read loop does not change the configured chunk size. -/
theorem files_read_rows_loop_chunk_size (fuel : Nat) (st : FilesReader)
    (acc : List String) :
    (FilesReader.read_rows_loop fuel st acc).2.chunk_size = st.chunk_size := by
  induction fuel generalizing st acc with
  | zero => rfl
  | succ fuel ih =>
    unfold FilesReader.read_rows_loop
    cases hcs : st.current_source with
    | none => rfl
    | some lines =>
      cases lines with
      | nil => exact files_next_source_chunk_size _
      | cons row rest =>
        dsimp only
        split_ifs with h1 h2
        · exact files_next_source_chunk_size _
        · exact ih _ _
        · exact ih _ _

/-- Helper: the read loop returns at most `fuel` additional rows. -/
theorem files_read_rows_loop_len (fuel : Nat) (st : FilesReader)
    (acc : List String) :
    (FilesReader.read_rows_loop fuel st acc).1.length ≤ acc.length + fuel := by
  induction fuel generalizing st acc with
  | zero => simp [FilesReader.read_rows_loop]
  | succ fuel ih =>
    unfold FilesReader.read_rows_loop
    cases hcs : st.current_source with
    | none => simp
    | some lines =>
      cases lines with
      | nil => simp
      | cons row rest =>
        dsimp only
        split_ifs with h1 h2
        · simp
        · refine le_trans (ih _ _) ?_
          simp
          omega
        · exact le_trans (ih _ _) (by omega)

/-- Helper: `read_rows` keeps the chunk size. -/
theorem files_read_rows_chunk_size (st : FilesReader) (m : Int) :
    (st.read_rows m).2.chunk_size = st.chunk_size := by
  unfold FilesReader.read_rows
  split_ifs with h
  · rfl
  · rcases hl : FilesReader.read_rows_loop (min m (st.chunk_size : Int)).toNat
        st [] with ⟨rows, st'⟩
    have := files_read_rows_loop_chunk_size
      (min m (st.chunk_size : Int)).toNat st []
    rw [hl] at this
    simpa [hl] using this

/-- Helper: `read_rows max_rows` returns at most
`min(max_rows, chunk_size)` rows. -/
theorem files_read_rows_len (st : FilesReader) (m : Int) (hm : 0 < m) :
    (st.read_rows m).1.length ≤ st.chunk_size ∧
    ((st.read_rows m).1.length : Int) ≤ m := by
  unfold FilesReader.read_rows
  split_ifs with h
  · exact ⟨by simp, by simp; omega⟩
  · rcases hl : FilesReader.read_rows_loop (min m (st.chunk_size : Int)).toNat
        st [] with ⟨rows, st'⟩
    have hlen : rows.length ≤ (min m (st.chunk_size : Int)).toNat := by
      have := files_read_rows_loop_len
        (min m (st.chunk_size : Int)).toNat st []
      rw [hl] at this
      simpa using this
    have hfil : (rows.filter (fun r => r ≠ "")).length ≤ rows.length :=
      List.length_filter_le _ _
    have hmin0 : (0 : Int) ≤ min m (st.chunk_size : Int) := by
      rcases le_total m (st.chunk_size : Int) with hc | hc <;>
        simp [min_eq_left, min_eq_right, hc] <;> omega
    constructor
    · simp only [hl]
      refine le_trans hfil (le_trans hlen ?_)
      rw [Int.toNat_le]
      exact le_trans (min_le_right _ _) (by simp)
    · simp only [hl]
      have h1 : ((rows.filter (fun r => r ≠ "")).length : Int) ≤
          (rows.length : Int) := by exact_mod_cast hfil
      have h2 : ((rows.length : Int)) ≤
          ((min m (st.chunk_size : Int)).toNat : Int) := by
        exact_mod_cast hlen
      rw [Int.toNat_of_nonneg hmin0] at h2
      exact le_trans h1 (le_trans h2 (min_le_left _ _))

/-- Helper: the meter update touches only the meter and the clock. -/
theorem feeder_meter_maybe_update_fields (st : FeedingProcess) :
    (FeedingProcess.meter_maybe_update st).reader = st.reader ∧
    (FeedingProcess.meter_maybe_update st).out = st.out ∧
    (FeedingProcess.meter_maybe_update st).chunk_id = st.chunk_id := by
  unfold FeedingProcess.meter_maybe_update
  split_ifs with h
  · exact ⟨rfl, rfl, rfl⟩
  · cases hc : st.clock with
    | nil => exact ⟨rfl, rfl, rfl⟩
    | cons e rest =>
      dsimp only
      split_ifs <;> exact ⟨rfl, rfl, rfl⟩

/-- Helper: `increment` touches only the meter and the clock. -/
theorem feeder_meter_increment_fields (st : FeedingProcess) (n : Nat) :
    (FeedingProcess.meter_increment st n).reader = st.reader ∧
    (FeedingProcess.meter_increment st n).out = st.out ∧
    (FeedingProcess.meter_increment st n).chunk_id = st.chunk_id := by
  unfold FeedingProcess.meter_increment
  exact feeder_meter_maybe_update_fields _

/-- Helper: the observable effect of `send_chunk`. -/
theorem feeder_send_chunk_fields (st : FeedingProcess) (rows : List String)
    (budget : Int) :
    (FeedingProcess.send_chunk st rows budget).out =
      st.out ++ [(chunk_dict (st.chunk_id + 1) rows, budget)] ∧
    (FeedingProcess.send_chunk st rows budget).chunk_id = st.chunk_id + 1 ∧
    (FeedingProcess.send_chunk st rows budget).reader = st.reader := by
  unfold FeedingProcess.send_chunk
  obtain ⟨hr, ho, hc⟩ :=
    feeder_meter_increment_fields { st with chunk_id := st.chunk_id + 1 }
      rows.length
  refine ⟨?_, ?_, ?_⟩ <;> simp [ho, hc, hr]

/-- Helper: a freshly built chunk dict is well-formed. -/
theorem good_chunk_dict (cs i : Nat) (rows : List String) (budget : Int)
    (hne : rows ≠ []) (hlen : rows.length ≤ cs)
    (hb : (rows.length : Int) ≤ budget) :
    FeedingProcess.good_chunk cs (chunk_dict i rows, budget) = true := by
  simp [FeedingProcess.good_chunk, chunk_dict, hne, hlen, hb]

/-- Helper: `feed_channel` preserves the feeder invariant. -/
theorem feeder_feed_channel_inv (cs : Nat) (st : FeedingProcess)
    (h : FeedingProcess.feeder_inv cs st) :
    FeedingProcess.feeder_inv cs (FeedingProcess.feed_channel st) := by
  obtain ⟨hid, hall, hids, hcs⟩ := h
  unfold FeedingProcess.feed_channel
  dsimp only
  split_ifs with hbudget hemp
  · obtain ⟨hr, ho, hc⟩ := feeder_meter_maybe_update_fields st
    exact ⟨by rw [hc, ho, hid], by rw [ho]; exact hall,
      by unfold FeedingProcess.chunk_ids at hids ⊢; rw [ho]; exact hids,
      by rw [hr]; exact hcs⟩
  · refine ⟨hid, hall, hids, ?_⟩
    show (st.reader.read_rows
        (st.ingest_rate - (st.meter_current : Int))).2.chunk_size = cs
    rw [files_read_rows_chunk_size]
    exact hcs
  · have hm : 0 < st.ingest_rate - (st.meter_current : Int) := by omega
    have hrl := files_read_rows_len st.reader
      (st.ingest_rate - (st.meter_current : Int)) hm
    have hne : (st.reader.read_rows
        (st.ingest_rate - (st.meter_current : Int))).1 ≠ [] := by
      simpa [List.isEmpty_iff] using hemp
    obtain ⟨ho, hc, hr⟩ :=
      feeder_send_chunk_fields
        { st with reader := (st.reader.read_rows
            (st.ingest_rate - (st.meter_current : Int))).2 }
        (st.reader.read_rows (st.ingest_rate - (st.meter_current : Int))).1
        (st.ingest_rate - (st.meter_current : Int))
    refine ⟨?_, ?_, ?_, ?_⟩
    · rw [hc, ho]
      simp [hid]
    · rw [ho, List.all_append]
      refine (Bool.and_eq_true _ _).mpr ⟨hall, ?_⟩
      simp only [List.all_cons, List.all_nil, Bool.and_true]
      exact good_chunk_dict cs _ _ _ hne
        (by rw [← hcs]; exact hrl.1) hrl.2
    · unfold FeedingProcess.chunk_ids at hids ⊢
      rw [ho]
      dsimp only
      rw [List.map_append, hids, hid]
      simp [chunk_dict, List.range'_1_concat, Nat.add_comm]
    · rw [hr]
      show (st.reader.read_rows
          (st.ingest_rate - (st.meter_current : Int))).2.chunk_size = cs
      rw [files_read_rows_chunk_size]
      exact hcs

/-- Helper: the channel loop preserves the feeder invariant. -/
theorem feeder_feed_channels_inv (cs : Nat) (n : Nat) (st : FeedingProcess)
    (h : FeedingProcess.feeder_inv cs st) :
    FeedingProcess.feeder_inv cs (FeedingProcess.feed_channels n st) := by
  induction n generalizing st with
  | zero => exact h
  | succ n ih =>
    unfold FeedingProcess.feed_channels
    have h1 := feeder_feed_channel_inv cs st h
    dsimp only
    split_ifs with hex
    · exact h1
    · exact ih _ h1

/-- Helper: the send loop preserves the feeder invariant. -/
theorem feeder_inner_run_inv (cs : Nat) (fuel nch : Nat)
    (st : FeedingProcess) (h : FeedingProcess.feeder_inv cs st) :
    FeedingProcess.feeder_inv cs (FeedingProcess.inner_run fuel nch st) := by
  induction fuel generalizing st with
  | zero => exact h
  | succ fuel ih =>
    unfold FeedingProcess.inner_run
    split_ifs with hex
    · exact h
    · exact ih _ (feeder_feed_channels_inv cs nch st h)

/-- Claim C6 (amended): every chunk the feeder sends is the record
`{id, rows, imported}` - with no `attempts` field - where `imported = 0`,
the ids are exactly `1, 2, 3, ...` in send order, and `rows` is a non-empty
list of at most `min(ingestrate - meter.current_record, chunksize)` rows read
at that point (the recorded budget is `ingestrate - meter.current_record` at
the moment the chunk was read). -/
theorem C6_feeder_chunks (fuel nchannels : Nat) (reader : FilesReader)
    (ingest_rate : Int) (clock : List Bool) :
    (FeedingProcess.run_feeder fuel nchannels reader ingest_rate clock).out.all
        (FeedingProcess.good_chunk reader.chunk_size) = true ∧
    FeedingProcess.chunk_ids
        (FeedingProcess.run_feeder fuel nchannels reader ingest_rate
          clock).out =
      (List.range' 1
          (FeedingProcess.run_feeder fuel nchannels reader ingest_rate
            clock).out.length).map (fun i => some (PyVal.vnat i)) := by
  have h0 : FeedingProcess.feeder_inv reader.chunk_size
      { reader := reader.start, ingest_rate := ingest_rate, chunk_id := 0,
        meter_current := 0, meter_total := 0, sent := 0, out := [],
        clock := clock } := by
    refine ⟨rfl, rfl, rfl, ?_⟩
    exact files_next_source_chunk_size reader
  have := feeder_inner_run_inv reader.chunk_size fuel nchannels _ h0
  exact ⟨this.2.1, this.2.2.1⟩

/-- Counterexample for C6: a run that sends one chunk; the sent record has no
`attempts` key at all (the claim says every sent chunk has `attempts = 1`). -/
theorem C6_chunks_have_no_attempts_field :
    (FeedingProcess.run_feeder 10 1
        { chunk_size := 5, header := false, max_rows := -1, skip_rows := 0,
          sources := [["r1"]], num_sources := 0, current_source := none,
          num_read := 0 } 1000 []).out.map
        (fun e => List.lookup "attempts" e.1) = [none] := by
  decide

/-- Witness for C2: a fresh range (0 attempts, 0 rows) receiving a range
error with `max_attempts = 5` is resent and not counted as failed. -/
theorem C2_export_retry_bookkeeping_witness :
    (ExportTask.export_step 5
      { ranges := [((some 1, some 2),
          { hosts := ["h"], attempts := 0, rows := 0 })],
        succeeded := 0, failed := 0 }
      (ExportTask.ExportMsg.rangeError (some 1, some 2))).2 =
        [(some 1, some 2)] ∧
    (ExportTask.export_step 5
      { ranges := [((some 1, some 2),
          { hosts := ["h"], attempts := 0, rows := 0 })],
        succeeded := 0, failed := 0 }
      (ExportTask.ExportMsg.rangeError (some 1, some 2))).1.failed = 0 :=
  ((C2_export_retry_bookkeeping 5
      { ranges := [((some 1, some 2),
          { hosts := ["h"], attempts := 0, rows := 0 })],
        succeeded := 0, failed := 0 }).2 (some 1, some 2)).1 (by decide)

/-- Helper: transitivity of the Python 2 comparison through an integer. -/
theorem pyLt_trans_right (a : Option Int) (t x : Int)
    (h1 : pyLt a (some t) = true) (h2 : t < x) : pyLt a (some x) = true := by
  cases a <;> simp [pyLt] at * <;> omega

/-- Helper: case analysis of a successful `make_range` clip: the low end is
the unclipped `prev` (which then is not below a set begin token) or the begin
token itself; the high end is the token (then not above a set end token) or
the end token itself; and the token is never below a set begin token. -/
theorem exp_make_range_cases (b e prev : Option Int) (t : Int)
    (rng : Option Int × Option Int)
    (hmk : ExportTask.make_range b e prev (some t) = some rng) :
    ((rng.1 = prev ∧ (truthy b = true → pyLt prev b = false)) ∨
      (truthy b = true ∧ rng.1 = b ∧ pyLt prev b = true)) ∧
    ((rng.2 = some t ∧ (truthy e = true → pyGt (some t) e = false)) ∨
      (truthy e = true ∧ rng.2 = e ∧ pyGt (some t) e = true)) ∧
    (truthy b = true → pyLt (some t) b = false) := by
  simp only [ExportTask.make_range] at hmk
  by_cases hb : truthy b = true
  · by_cases hskip : pyLt (some t) b = true
    · simp [hb, hskip] at hmk
    · by_cases hclip : pyLt prev b = true
      · simp only [hb, hskip, hclip, if_true, if_false, Bool.false_eq_true] at hmk
        by_cases he : truthy e = true
        · by_cases heskip : pyGt b e = true
          · simp [he, heskip] at hmk
          · by_cases heclip : pyGt (some t) e = true
            · simp only [he, heskip, heclip, if_true, if_false,
                Bool.false_eq_true] at hmk
              cases hmk
              exact ⟨Or.inr ⟨hb, rfl, hclip⟩, Or.inr ⟨he, rfl, heclip⟩,
                fun _ => by simpa using hskip⟩
            · simp only [he, heskip, heclip, if_true, if_false,
                Bool.false_eq_true] at hmk
              cases hmk
              exact ⟨Or.inr ⟨hb, rfl, hclip⟩,
                Or.inl ⟨rfl, fun _ => by simpa using heclip⟩,
                fun _ => by simpa using hskip⟩
        · simp only [he, if_false, Bool.false_eq_true] at hmk
          cases hmk
          exact ⟨Or.inr ⟨hb, rfl, hclip⟩,
            Or.inl ⟨rfl, fun hcontra => absurd hcontra he⟩,
            fun _ => by simpa using hskip⟩
      · simp only [hb, hskip, hclip, if_true, if_false, Bool.false_eq_true] at hmk
        by_cases he : truthy e = true
        · by_cases heskip : pyGt prev e = true
          · simp [he, heskip] at hmk
          · by_cases heclip : pyGt (some t) e = true
            · simp only [he, heskip, heclip, if_true, if_false,
                Bool.false_eq_true] at hmk
              cases hmk
              exact ⟨Or.inl ⟨rfl, fun _ => by simpa using hclip⟩,
                Or.inr ⟨he, rfl, heclip⟩, fun _ => by simpa using hskip⟩
            · simp only [he, heskip, heclip, if_true, if_false,
                Bool.false_eq_true] at hmk
              cases hmk
              exact ⟨Or.inl ⟨rfl, fun _ => by simpa using hclip⟩,
                Or.inl ⟨rfl, fun _ => by simpa using heclip⟩,
                fun _ => by simpa using hskip⟩
        · simp only [he, if_false, Bool.false_eq_true] at hmk
          cases hmk
          exact ⟨Or.inl ⟨rfl, fun _ => by simpa using hclip⟩,
            Or.inl ⟨rfl, fun hcontra => absurd hcontra he⟩,
            fun _ => by simpa using hskip⟩
  · simp only [hb, if_false, Bool.false_eq_true] at hmk
    by_cases he : truthy e = true
    · by_cases heskip : pyGt prev e = true
      · simp [he, heskip] at hmk
      · by_cases heclip : pyGt (some t) e = true
        · simp only [he, heskip, heclip, if_true, if_false,
            Bool.false_eq_true] at hmk
          cases hmk
          exact ⟨Or.inl ⟨rfl, fun hcontra => absurd hcontra hb⟩,
            Or.inr ⟨he, rfl, heclip⟩, fun hcontra => absurd hcontra hb⟩
        · simp only [he, heskip, heclip, if_true, if_false,
            Bool.false_eq_true] at hmk
          cases hmk
          exact ⟨Or.inl ⟨rfl, fun hcontra => absurd hcontra hb⟩,
            Or.inl ⟨rfl, fun _ => by simpa using heclip⟩,
            fun hcontra => absurd hcontra hb⟩
    · simp only [he, if_false, Bool.false_eq_true] at hmk
      cases hmk
      exact ⟨Or.inl ⟨rfl, fun hcontra => absurd hcontra hb⟩,
        Or.inl ⟨rfl, fun hcontra => absurd hcontra he⟩,
        fun hcontra => absurd hcontra hb⟩

/-- Helper: a token inside a clipped range lies strictly above the loop's
`previous` and at most at the pair's token. -/
theorem exp_make_range_mem_bounds (b e prev : Option Int) (t x : Int)
    (rng : Option Int × Option Int)
    (hmk : ExportTask.make_range b e prev (some t) = some rng)
    (hx : ExportTask.mem_range rng x = true) :
    pyLt prev (some x) = true ∧ x ≤ t := by
  obtain ⟨hlo, hhi, -⟩ := exp_make_range_cases b e prev t rng hmk
  rcases rng with ⟨lo, hi⟩
  unfold ExportTask.mem_range at hx
  rw [Bool.and_eq_true] at hx
  obtain ⟨hx1, hx2⟩ := hx
  constructor
  · rcases hlo with ⟨hl, -⟩ | ⟨hb, hl, hpl⟩
    · rw [hl] at hx1
      cases prev with
      | none => simp [pyLt]
      | some p =>
        simp only [decide_eq_true_eq] at hx1
        simp [pyLt]
        omega
    · cases b with
      | none => simp [truthy] at hb
      | some bv =>
        rw [hl] at hx1
        simp only [decide_eq_true_eq] at hx1
        exact pyLt_trans_right prev bv x hpl hx1
  · rcases hhi with ⟨hh, -⟩ | ⟨he, hh, hpg⟩
    · rw [hh] at hx2
      simpa using hx2
    · cases e with
      | none => simp [truthy] at he
      | some ev =>
        rw [hh] at hx2
        simp only [decide_eq_true_eq] at hx2
        simp [pyGt, pyLt] at hpg
        omega

/-- Helper: every window token between the loop's `previous` (exclusive) and
the pair's token (inclusive) lies inside the clipped range. -/
theorem exp_make_range_mem_complete (b e prev : Option Int) (t x : Int)
    (rng : Option Int × Option Int)
    (hmk : ExportTask.make_range b e prev (some t) = some rng)
    (hx1 : pyLt prev (some x) = true) (hx2 : x ≤ t)
    (hw : ExportTask.in_window b e x = true) :
    ExportTask.mem_range rng x = true := by
  obtain ⟨hlo, hhi, -⟩ := exp_make_range_cases b e prev t rng hmk
  rcases rng with ⟨lo, hi⟩
  unfold ExportTask.in_window at hw
  rw [Bool.and_eq_true] at hw
  obtain ⟨hw1, hw2⟩ := hw
  unfold ExportTask.mem_range
  rw [Bool.and_eq_true]
  constructor
  · rcases hlo with ⟨hl, -⟩ | ⟨hb, hl, -⟩
    · rw [hl]
      cases prev with
      | none => simp
      | some p =>
        simp [pyLt] at hx1
        simpa using hx1
    · cases b with
      | none => simp [truthy] at hb
      | some bv =>
        rw [hl]
        rw [if_pos hb] at hw1
        simpa using hw1
  · rcases hhi with ⟨hh, -⟩ | ⟨he, hh, -⟩
    · rw [hh]
      simpa using hx2
    · cases e with
      | none => simp [truthy] at he
      | some ev =>
        rw [hh]
        rw [if_pos he] at hw2
        simpa using hw2

/-- Helper: every token of a clipped range lies inside the caller window. -/
theorem exp_make_range_mem_window (b e prev : Option Int) (t x : Int)
    (rng : Option Int × Option Int)
    (hmk : ExportTask.make_range b e prev (some t) = some rng)
    (hx : ExportTask.mem_range rng x = true) :
    ExportTask.in_window b e x = true := by
  obtain ⟨hlo, hhi, -⟩ := exp_make_range_cases b e prev t rng hmk
  rcases rng with ⟨lo, hi⟩
  unfold ExportTask.mem_range at hx
  rw [Bool.and_eq_true] at hx
  obtain ⟨hx1, hx2⟩ := hx
  unfold ExportTask.in_window
  rw [Bool.and_eq_true]
  constructor
  · by_cases hb : truthy b = true
    · rw [if_pos hb]
      cases b with
      | none => simp [truthy] at hb
      | some bv =>
        rcases hlo with ⟨hl, hnl⟩ | ⟨-, hl, -⟩
        · have hnl' := hnl hb
          cases prev with
          | none => simp [pyLt] at hnl'
          | some p =>
            rw [hl] at hx1
            simp only [decide_eq_true_eq] at hx1
            simp [pyLt] at hnl'
            simp only [Option.getD_some, decide_eq_true_eq]
            omega
        · rw [hl] at hx1
          simp only [decide_eq_true_eq] at hx1
          simpa using hx1
    · rw [if_neg hb]
  · by_cases he : truthy e = true
    · rw [if_pos he]
      cases e with
      | none => simp [truthy] at he
      | some ev =>
        rcases hhi with ⟨hh, hnh⟩ | ⟨-, hh, -⟩
        · have hnh' := hnh he
          rw [hh] at hx2
          simp only [decide_eq_true_eq] at hx2
          simp [pyGt, pyLt] at hnh'
          simp only [Option.getD_some, decide_eq_true_eq]
          omega
        · rw [hh] at hx2
          simp only [decide_eq_true_eq] at hx2
          simpa using hx2
    · rw [if_neg he]

/-- Helper: when `make_range` rejects a pair, no window token above the
loop's `previous` and at most at the pair's token exists. -/
theorem exp_make_range_none_no_window (b e prev : Option Int) (t x : Int)
    (hmk : ExportTask.make_range b e prev (some t) = none)
    (hx1 : pyLt prev (some x) = true) (hx2 : x ≤ t)
    (hw : ExportTask.in_window b e x = true) : False := by
  unfold ExportTask.in_window at hw
  rw [Bool.and_eq_true] at hw
  obtain ⟨hw1, hw2⟩ := hw
  simp only [ExportTask.make_range] at hmk
  by_cases hb : truthy b = true
  · by_cases hskip : pyLt (some t) b = true
    · cases b with
      | none => simp [truthy] at hb
      | some bv =>
        rw [if_pos hb] at hw1
        simp only [Option.getD_some, decide_eq_true_eq] at hw1
        simp [pyLt] at hskip
        omega
    · by_cases hclip : pyLt prev b = true
      · simp only [hb, hskip, hclip, if_true, if_false,
          Bool.false_eq_true] at hmk
        by_cases he : truthy e = true
        · by_cases heskip : pyGt b e = true
          · cases b with
            | none => simp [truthy] at hb
            | some bv =>
              cases e with
              | none => simp [truthy] at he
              | some ev =>
                rw [if_pos hb] at hw1
                rw [if_pos he] at hw2
                simp only [Option.getD_some, decide_eq_true_eq] at hw1 hw2
                simp [pyGt, pyLt] at heskip
                omega
          · by_cases heclip : pyGt (some t) e = true <;>
              simp [he, heskip, heclip] at hmk
        · simp [he] at hmk
      · simp only [hb, hskip, hclip, if_true, if_false,
          Bool.false_eq_true] at hmk
        by_cases he : truthy e = true
        · by_cases heskip : pyGt prev e = true
          · cases e with
            | none => simp [truthy] at he
            | some ev =>
              cases prev with
              | none => simp [pyGt, pyLt] at heskip
              | some p =>
                rw [if_pos he] at hw2
                simp only [Option.getD_some, decide_eq_true_eq] at hw2
                simp [pyGt, pyLt] at heskip
                simp [pyLt] at hx1
                omega
          · by_cases heclip : pyGt (some t) e = true <;>
              simp [he, heskip, heclip] at hmk
        · simp [he] at hmk
  · simp only [hb, if_false, Bool.false_eq_true] at hmk
    by_cases he : truthy e = true
    · by_cases heskip : pyGt prev e = true
      · cases e with
        | none => simp [truthy] at he
        | some ev =>
          cases prev with
          | none => simp [pyGt, pyLt] at heskip
          | some p =>
            rw [if_pos he] at hw2
            simp only [Option.getD_some, decide_eq_true_eq] at hw2
            simp [pyGt, pyLt] at heskip
            simp [pyLt] at hx1
            omega
      · by_cases heclip : pyGt (some t) e = true <;>
          simp [he, heskip, heclip] at hmk
    · simp [he] at hmk

/-- Helper: the ring loop appends its emissions to the accumulator. -/
theorem exp_ranges_loop_acc (b e : Option Int) (m : Int) (hn dc : String)
    (S : List (Int × List Replica)) (prev : Option Int)
    (acc : List ((Option Int × Option Int) × RangeData)) :
    ExportTask.ranges_loop b e m hn dc S prev acc =
      ((ExportTask.ranges_loop b e m hn dc S prev []).1,
        acc ++ (ExportTask.ranges_loop b e m hn dc S prev []).2) := by
  induction S generalizing prev acc with
  | nil => simp [ExportTask.ranges_loop]
  | cons p rest ih =>
    rcases p with ⟨t, reps⟩
    unfold ExportTask.ranges_loop
    by_cases hm : t = m
    · rw [if_pos hm, if_pos hm]
      exact ih prev acc
    · rw [if_neg hm, if_neg hm]
      cases hmk : ExportTask.make_range b e prev (some t) with
      | none =>
        dsimp only
        exact ih prev acc
      | some rng =>
        dsimp only
        rw [ih (some t)
          (acc ++ [(rng, ExportTask.make_range_data hn dc (some reps))]),
          ih (some t)
          ([] ++ [(rng, ExportTask.make_range_data hn dc (some reps))])]
        simp

/-- Helper: one unfolding step of the ring loop with empty accumulator. -/
theorem exp_ranges_loop_cons (b e : Option Int) (m : Int) (hn dc : String)
    (t : Int) (reps : List Replica) (rest : List (Int × List Replica))
    (prev : Option Int) :
    ExportTask.ranges_loop b e m hn dc ((t, reps) :: rest) prev [] =
      (if t = m then ExportTask.ranges_loop b e m hn dc rest prev []
       else
        match ExportTask.make_range b e prev (some t) with
        | none => ExportTask.ranges_loop b e m hn dc rest prev []
        | some rng =>
            ExportTask.ranges_loop b e m hn dc rest (some t)
              [(rng, ExportTask.make_range_data hn dc (some reps))]) := by
  conv_lhs => unfold ExportTask.ranges_loop
  rfl

/-- Helper: unfolding the loop on a min-token head. -/
theorem exp_loop_cons_min (b e : Option Int) (m : Int) (hn dc : String)
    (t : Int) (reps : List Replica) (rest : List (Int × List Replica))
    (prev : Option Int) (hm : t = m) :
    ExportTask.loop_emitted b e m hn dc ((t, reps) :: rest) prev =
      ExportTask.loop_emitted b e m hn dc rest prev ∧
    ExportTask.loop_last b e m hn dc ((t, reps) :: rest) prev =
      ExportTask.loop_last b e m hn dc rest prev := by
  unfold ExportTask.loop_emitted ExportTask.loop_last
  rw [exp_ranges_loop_cons, if_pos hm]
  exact ⟨rfl, rfl⟩

/-- Helper: unfolding the loop on a rejected pair. -/
theorem exp_loop_cons_skip (b e : Option Int) (m : Int) (hn dc : String)
    (t : Int) (reps : List Replica) (rest : List (Int × List Replica))
    (prev : Option Int) (hm : t ≠ m)
    (hmk : ExportTask.make_range b e prev (some t) = none) :
    ExportTask.loop_emitted b e m hn dc ((t, reps) :: rest) prev =
      ExportTask.loop_emitted b e m hn dc rest prev ∧
    ExportTask.loop_last b e m hn dc ((t, reps) :: rest) prev =
      ExportTask.loop_last b e m hn dc rest prev := by
  unfold ExportTask.loop_emitted ExportTask.loop_last
  rw [exp_ranges_loop_cons, if_neg hm, hmk]
  exact ⟨rfl, rfl⟩

/-- Helper: unfolding the loop on an emitted pair. -/
theorem exp_loop_cons_emit (b e : Option Int) (m : Int) (hn dc : String)
    (t : Int) (reps : List Replica) (rest : List (Int × List Replica))
    (prev : Option Int) (rng : Option Int × Option Int) (hm : t ≠ m)
    (hmk : ExportTask.make_range b e prev (some t) = some rng) :
    ExportTask.loop_emitted b e m hn dc ((t, reps) :: rest) prev =
      (rng, ExportTask.make_range_data hn dc (some reps)) ::
        ExportTask.loop_emitted b e m hn dc rest (some t) ∧
    ExportTask.loop_last b e m hn dc ((t, reps) :: rest) prev =
      ExportTask.loop_last b e m hn dc rest (some t) := by
  unfold ExportTask.loop_emitted ExportTask.loop_last
  rw [exp_ranges_loop_cons, if_neg hm, hmk]
  dsimp only
  rw [exp_ranges_loop_acc b e m hn dc rest (some t)
    [(rng, ExportTask.make_range_data hn dc (some reps))]]
  exact ⟨rfl, rfl⟩

/-- Helper: the final `previous` is the initial one or a later value. -/
theorem exp_loop_last_mono (b e : Option Int) (m : Int) (hn dc : String)
    (S : List (Int × List Replica)) (prev : Option Int)
    (hgt : ∀ p ∈ S, pyLt prev (some p.1) = true)
    (hsort : List.Pairwise (fun a c => a < c) (S.map (fun p => p.1))) :
    ExportTask.loop_last b e m hn dc S prev = prev ∨
      (∃ q, ExportTask.loop_last b e m hn dc S prev = some q ∧
        pyLt prev (some q) = true) := by
  induction S generalizing prev with
  | nil => exact Or.inl rfl
  | cons p rest ih =>
    rcases p with ⟨t, reps⟩
    rw [List.map_cons, List.pairwise_cons] at hsort
    obtain ⟨hlt, hsort'⟩ := hsort
    have hgt' : ∀ p ∈ rest, pyLt prev (some p.1) = true :=
      fun p hp => hgt p (List.mem_cons_of_mem _ hp)
    by_cases hm : t = m
    · rw [(exp_loop_cons_min b e m hn dc t reps rest prev hm).2]
      exact ih prev hgt' hsort'
    · cases hmk : ExportTask.make_range b e prev (some t) with
      | none =>
        rw [(exp_loop_cons_skip b e m hn dc t reps rest prev hm hmk).2]
        exact ih prev hgt' hsort'
      | some rng =>
        rw [(exp_loop_cons_emit b e m hn dc t reps rest prev rng hm hmk).2]
        have hgtt : ∀ p ∈ rest, pyLt (some t) (some p.1) = true := by
          intro p hp
          have := hlt p.1 (List.mem_map_of_mem _ hp)
          simp [pyLt]
          omega
        have hht : pyLt prev (some t) = true :=
          hgt (t, reps) (List.mem_cons_self _ _)
        rcases ih (some t) hgtt hsort' with hsame | ⟨q, hq, hpq⟩
        · exact Or.inr ⟨t, hsame, hht⟩
        · refine Or.inr ⟨q, hq, ?_⟩
          simp [pyLt] at hpq
          exact pyLt_trans_right prev t q hht hpq

/-- Helper: tokens after a sorted head are above it in the Python order. -/
theorem exp_tokens_gt (t : Int) (rest : List (Int × List Replica))
    (hlt : ∀ y ∈ rest.map (fun p => p.1), t < y) :
    ∀ p ∈ rest, pyLt (some t) (some p.1) = true := by
  intro p hp
  have := hlt p.1 (List.mem_map_of_mem _ hp)
  simp [pyLt]
  omega

/-- Helper: every token of an emitted range lies strictly above the
`previous` state the loop started from. -/
theorem exp_loop_emitted_low (b e : Option Int) (m : Int) (hn dc : String)
    (S : List (Int × List Replica)) (prev : Option Int)
    (hgt : ∀ p ∈ S, pyLt prev (some p.1) = true)
    (hsort : List.Pairwise (fun a c => a < c) (S.map (fun p => p.1))) :
    ∀ kv ∈ ExportTask.loop_emitted b e m hn dc S prev, ∀ x : Int,
      ExportTask.mem_range kv.1 x = true → pyLt prev (some x) = true := by
  induction S generalizing prev with
  | nil =>
    intro kv hkv
    simp [ExportTask.loop_emitted, ExportTask.ranges_loop] at hkv
  | cons p rest ih =>
    rcases p with ⟨t, reps⟩
    rw [List.map_cons, List.pairwise_cons] at hsort
    obtain ⟨hlt, hsort'⟩ := hsort
    have hgt' : ∀ p ∈ rest, pyLt prev (some p.1) = true :=
      fun p hp => hgt p (List.mem_cons_of_mem _ hp)
    have hgtt := exp_tokens_gt t rest hlt
    by_cases hm : t = m
    · rw [(exp_loop_cons_min b e m hn dc t reps rest prev hm).1]
      exact ih prev hgt' hsort'
    · cases hmk : ExportTask.make_range b e prev (some t) with
      | none =>
        rw [(exp_loop_cons_skip b e m hn dc t reps rest prev hm hmk).1]
        exact ih prev hgt' hsort'
      | some rng =>
        rw [(exp_loop_cons_emit b e m hn dc t reps rest prev rng hm hmk).1]
        intro kv hkv x hx
        rcases List.mem_cons.mp hkv with hkv | hkv
        · rw [hkv] at hx
          exact (exp_make_range_mem_bounds b e prev t x rng hmk hx).1
        · have hx' := ih (some t) hgtt hsort' kv hkv x hx
          have hht := hgt (t, reps) (List.mem_cons_self _ _)
          simp only [pyLt, decide_eq_true_eq] at hx'
          exact pyLt_trans_right prev t x hht hx'

/-- Helper: every token of an emitted range is at most the final
`previous`. -/
theorem exp_loop_emitted_high (b e : Option Int) (m : Int) (hn dc : String)
    (S : List (Int × List Replica)) (prev : Option Int)
    (hgt : ∀ p ∈ S, pyLt prev (some p.1) = true)
    (hsort : List.Pairwise (fun a c => a < c) (S.map (fun p => p.1))) :
    ∀ kv ∈ ExportTask.loop_emitted b e m hn dc S prev, ∀ x : Int,
      ExportTask.mem_range kv.1 x = true →
      ∀ q, ExportTask.loop_last b e m hn dc S prev = some q → x ≤ q := by
  induction S generalizing prev with
  | nil =>
    intro kv hkv
    simp [ExportTask.loop_emitted, ExportTask.ranges_loop] at hkv
  | cons p rest ih =>
    rcases p with ⟨t, reps⟩
    rw [List.map_cons, List.pairwise_cons] at hsort
    obtain ⟨hlt, hsort'⟩ := hsort
    have hgt' : ∀ p ∈ rest, pyLt prev (some p.1) = true :=
      fun p hp => hgt p (List.mem_cons_of_mem _ hp)
    have hgtt := exp_tokens_gt t rest hlt
    by_cases hm : t = m
    · rw [(exp_loop_cons_min b e m hn dc t reps rest prev hm).1,
        (exp_loop_cons_min b e m hn dc t reps rest prev hm).2]
      exact ih prev hgt' hsort'
    · cases hmk : ExportTask.make_range b e prev (some t) with
      | none =>
        rw [(exp_loop_cons_skip b e m hn dc t reps rest prev hm hmk).1,
          (exp_loop_cons_skip b e m hn dc t reps rest prev hm hmk).2]
        exact ih prev hgt' hsort'
      | some rng =>
        rw [(exp_loop_cons_emit b e m hn dc t reps rest prev rng hm hmk).1,
          (exp_loop_cons_emit b e m hn dc t reps rest prev rng hm hmk).2]
        intro kv hkv x hx q hq
        rcases List.mem_cons.mp hkv with hkv | hkv
        · rw [hkv] at hx
          have hxt := (exp_make_range_mem_bounds b e prev t x rng hmk hx).2
          rcases exp_loop_last_mono b e m hn dc rest (some t) hgtt hsort'
            with hsame | ⟨q', hq', hpq⟩
          · rw [hsame] at hq
            injection hq with hq
            omega
          · rw [hq'] at hq
            injection hq with hq
            simp only [pyLt, decide_eq_true_eq] at hpq
            omega
        · exact ih (some t) hgtt hsort' kv hkv x hx q hq

/-- Helper: the ranges emitted by the ring loop are pairwise disjoint. -/
theorem exp_loop_emitted_pairwise (b e : Option Int) (m : Int)
    (hn dc : String) (S : List (Int × List Replica)) (prev : Option Int)
    (hgt : ∀ p ∈ S, pyLt prev (some p.1) = true)
    (hsort : List.Pairwise (fun a c => a < c) (S.map (fun p => p.1))) :
    List.Pairwise (fun kv1 kv2 => ExportTask.disjoint_ranges kv1.1 kv2.1)
      (ExportTask.loop_emitted b e m hn dc S prev) := by
  induction S generalizing prev with
  | nil =>
    simp [ExportTask.loop_emitted, ExportTask.ranges_loop]
  | cons p rest ih =>
    rcases p with ⟨t, reps⟩
    rw [List.map_cons, List.pairwise_cons] at hsort
    obtain ⟨hlt, hsort'⟩ := hsort
    have hgt' : ∀ p ∈ rest, pyLt prev (some p.1) = true :=
      fun p hp => hgt p (List.mem_cons_of_mem _ hp)
    have hgtt := exp_tokens_gt t rest hlt
    by_cases hm : t = m
    · rw [(exp_loop_cons_min b e m hn dc t reps rest prev hm).1]
      exact ih prev hgt' hsort'
    · cases hmk : ExportTask.make_range b e prev (some t) with
      | none =>
        rw [(exp_loop_cons_skip b e m hn dc t reps rest prev hm hmk).1]
        exact ih prev hgt' hsort'
      | some rng =>
        rw [(exp_loop_cons_emit b e m hn dc t reps rest prev rng hm hmk).1]
        refine List.Pairwise.cons ?_ (ih (some t) hgtt hsort')
        intro kv' hkv' x hboth
        obtain ⟨hx1, hx2⟩ := hboth
        have hxt := (exp_make_range_mem_bounds b e prev t x rng hmk hx1).2
        have hgtx := exp_loop_emitted_low b e m hn dc rest (some t) hgtt
          hsort' kv' hkv' x hx2
        simp only [pyLt, decide_eq_true_eq] at hgtx
        omega

/-- Helper: every token of an emitted range lies inside the window. -/
theorem exp_loop_emitted_window_sub (b e : Option Int) (m : Int)
    (hn dc : String) (S : List (Int × List Replica)) (prev : Option Int) :
    ∀ kv ∈ ExportTask.loop_emitted b e m hn dc S prev, ∀ x : Int,
      ExportTask.mem_range kv.1 x = true →
      ExportTask.in_window b e x = true := by
  induction S generalizing prev with
  | nil =>
    intro kv hkv
    simp [ExportTask.loop_emitted, ExportTask.ranges_loop] at hkv
  | cons p rest ih =>
    rcases p with ⟨t, reps⟩
    by_cases hm : t = m
    · rw [(exp_loop_cons_min b e m hn dc t reps rest prev hm).1]
      exact ih prev
    · cases hmk : ExportTask.make_range b e prev (some t) with
      | none =>
        rw [(exp_loop_cons_skip b e m hn dc t reps rest prev hm hmk).1]
        exact ih prev
      | some rng =>
        rw [(exp_loop_cons_emit b e m hn dc t reps rest prev rng hm hmk).1]
        intro kv hkv x hx
        rcases List.mem_cons.mp hkv with hkv | hkv
        · rw [hkv] at hx
          exact exp_make_range_mem_window b e prev t x rng hmk hx
        · exact ih (some t) kv hkv x hx

/-- Helper: every window token above the initial `previous` and at most the
final `previous` lies in some emitted range. -/
theorem exp_loop_emitted_complete (b e : Option Int) (m : Int)
    (hn dc : String) (S : List (Int × List Replica)) (prev : Option Int)
    (hgt : ∀ p ∈ S, pyLt prev (some p.1) = true)
    (hsort : List.Pairwise (fun a c => a < c) (S.map (fun p => p.1))) :
    ∀ x : Int, ExportTask.in_window b e x = true →
      pyLt prev (some x) = true →
      ∀ q, ExportTask.loop_last b e m hn dc S prev = some q → x ≤ q →
      ∃ kv ∈ ExportTask.loop_emitted b e m hn dc S prev,
        ExportTask.mem_range kv.1 x = true := by
  induction S generalizing prev with
  | nil =>
    intro x hw hpx q hq hxq
    have hpq : prev = some q := hq
    rw [hpq] at hpx
    simp only [pyLt, decide_eq_true_eq] at hpx
    omega
  | cons p rest ih =>
    rcases p with ⟨t, reps⟩
    rw [List.map_cons, List.pairwise_cons] at hsort
    obtain ⟨hlt, hsort'⟩ := hsort
    have hgt' : ∀ p ∈ rest, pyLt prev (some p.1) = true :=
      fun p hp => hgt p (List.mem_cons_of_mem _ hp)
    have hgtt := exp_tokens_gt t rest hlt
    by_cases hm : t = m
    · rw [(exp_loop_cons_min b e m hn dc t reps rest prev hm).1]
      intro x hw hpx q hq hxq
      rw [(exp_loop_cons_min b e m hn dc t reps rest prev hm).2] at hq
      exact ih prev hgt' hsort' x hw hpx q hq hxq
    · cases hmk : ExportTask.make_range b e prev (some t) with
      | none =>
        rw [(exp_loop_cons_skip b e m hn dc t reps rest prev hm hmk).1]
        intro x hw hpx q hq hxq
        rw [(exp_loop_cons_skip b e m hn dc t reps rest prev hm hmk).2] at hq
        by_cases hxt : x ≤ t
        · exact (exp_make_range_none_no_window b e prev t x hmk hpx hxt
            hw).elim
        · exact ih prev hgt' hsort' x hw hpx q hq hxq
      | some rng =>
        rw [(exp_loop_cons_emit b e m hn dc t reps rest prev rng hm hmk).1]
        intro x hw hpx q hq hxq
        rw [(exp_loop_cons_emit b e m hn dc t reps rest prev rng hm hmk).2]
          at hq
        by_cases hxt : x ≤ t
        · exact ⟨(rng, ExportTask.make_range_data hn dc (some reps)),
            List.mem_cons_self _ _,
            exp_make_range_mem_complete b e prev t x rng hmk hpx hxt hw⟩
        · have hpx' : pyLt (some t) (some x) = true := by
            simp [pyLt]
            omega
          obtain ⟨kv, hkv, hmem⟩ :=
            ih (some t) hgtt hsort' x hw hpx' q hq hxq
          exact ⟨kv, List.mem_cons_of_mem _ hkv, hmem⟩

/-- Helper: from the initial `previous = None` state, a rejected pair can
only be a begin-token rejection (provided the validated window has
`begin <= end`). -/
theorem exp_make_range_none_begin (b e : Option Int) (t : Int)
    (hmk : ExportTask.make_range b e none (some t) = none)
    (hbe : truthy b = true → truthy e = true → pyGt b e = false) :
    truthy b = true ∧ pyLt (some t) b = true := by
  simp only [ExportTask.make_range] at hmk
  by_cases hb : truthy b = true
  · by_cases hskip : pyLt (some t) b = true
    · exact ⟨hb, hskip⟩
    · have hcl : pyLt none b = true := by
        cases b with
        | none => simp [truthy] at hb
        | some bv => simp [pyLt]
      simp only [hb, hskip, hcl, if_true, if_false,
        Bool.false_eq_true] at hmk
      by_cases he : truthy e = true
      · have hbe' := hbe hb he
        simp only [he, hbe', if_true, if_false, Bool.false_eq_true] at hmk
        by_cases heclip : pyGt (some t) e = true <;> simp [heclip] at hmk
      · simp [he] at hmk
  · simp only [hb, if_false, Bool.false_eq_true] at hmk
    by_cases he : truthy e = true
    · have hnone : pyGt (none : Option Int) e = false := by
        cases e <;> simp [pyGt, pyLt]
      simp only [he, hnone, if_true, if_false, Bool.false_eq_true] at hmk
      by_cases heclip : pyGt (some t) e = true <;> simp [heclip] at hmk
    · simp [he] at hmk

/-- Helper: when some non-minimum ring token is not below the begin token
(and the validated window has `begin <= end`), the loop emits at least once,
so the final `previous` is set. -/
theorem exp_loop_last_isSome (b e : Option Int) (m : Int) (hn dc : String)
    (S : List (Int × List Replica)) (prev : Option Int)
    (hgt : ∀ p ∈ S, pyLt prev (some p.1) = true)
    (hsort : List.Pairwise (fun a c => a < c) (S.map (fun p => p.1)))
    (hbe : truthy b = true → truthy e = true → pyGt b e = false)
    (hwit : ∃ p ∈ S, p.1 ≠ m ∧
      (truthy b = true → pyLt (some p.1) b = false)) :
    ∃ q, ExportTask.loop_last b e m hn dc S prev = some q := by
  induction S generalizing prev with
  | nil =>
    obtain ⟨p, hp, -⟩ := hwit
    simp at hp
  | cons p rest ih =>
    rcases p with ⟨t, reps⟩
    have hsort0 := hsort
    rw [List.map_cons, List.pairwise_cons] at hsort
    obtain ⟨hlt, hsort'⟩ := hsort
    have hgt' : ∀ p ∈ rest, pyLt prev (some p.1) = true :=
      fun p hp => hgt p (List.mem_cons_of_mem _ hp)
    have hgtt := exp_tokens_gt t rest hlt
    cases prev with
    | some p0 =>
      rcases exp_loop_last_mono b e m hn dc ((t, reps) :: rest) (some p0)
        hgt hsort0 with hsame | ⟨q, hq, -⟩
      · exact ⟨p0, hsame⟩
      · exact ⟨q, hq⟩
    | none =>
      by_cases hm : t = m
      · rw [(exp_loop_cons_min b e m hn dc t reps rest none hm).2]
        refine ih none hgt' hsort' ?_
        obtain ⟨p, hp, hpm, hpb⟩ := hwit
        rcases List.mem_cons.mp hp with hp | hp
        · rw [hp] at hpm
          exact absurd hm hpm
        · exact ⟨p, hp, hpm, hpb⟩
      · cases hmk : ExportTask.make_range b e none (some t) with
        | some rng =>
          rw [(exp_loop_cons_emit b e m hn dc t reps rest none rng hm hmk).2]
          rcases exp_loop_last_mono b e m hn dc rest (some t) hgtt hsort'
            with hsame | ⟨q, hq, -⟩
          · exact ⟨t, hsame⟩
          · exact ⟨q, hq⟩
        | none =>
          obtain ⟨hb, hskip⟩ := exp_make_range_none_begin b e t hmk hbe
          rw [(exp_loop_cons_skip b e m hn dc t reps rest none hm hmk).2]
          refine ih none hgt' hsort' ?_
          obtain ⟨p, hp, hpm, hpb⟩ := hwit
          rcases List.mem_cons.mp hp with hp | hp
          · rw [hp] at hpb
            rw [hpb hb] at hskip
            cases hskip
          · exact ⟨p, hp, hpm, hpb⟩

/-- Helper: the final `previous` is never below a set begin token. -/
theorem exp_loop_last_not_lt_b (b e : Option Int) (m : Int) (hn dc : String)
    (S : List (Int × List Replica)) (prev : Option Int)
    (hstart : prev = none ∨ (truthy b = true → pyLt prev b = false)) :
    ∀ q, ExportTask.loop_last b e m hn dc S prev = some q →
      truthy b = true → pyLt (some q) b = false := by
  induction S generalizing prev with
  | nil =>
    intro q hq hb
    have hpq : prev = some q := hq
    rcases hstart with h0 | hprev
    · rw [h0] at hpq
      cases hpq
    · rw [hpq] at hprev
      exact hprev hb
  | cons p rest ih =>
    rcases p with ⟨t, reps⟩
    by_cases hm : t = m
    · intro q hq hb
      rw [(exp_loop_cons_min b e m hn dc t reps rest prev hm).2] at hq
      exact ih prev hstart q hq hb
    · cases hmk : ExportTask.make_range b e prev (some t) with
      | none =>
        intro q hq hb
        rw [(exp_loop_cons_skip b e m hn dc t reps rest prev hm hmk).2] at hq
        exact ih prev hstart q hq hb
      | some rng =>
        intro q hq hb
        rw [(exp_loop_cons_emit b e m hn dc t reps rest prev rng hm hmk).2]
          at hq
        have hthird := (exp_make_range_cases b e prev t rng hmk).2.2
        exact ih (some t) (Or.inr hthird) q hq hb

/-- Helper: in the multi-token ring branch, `get_ranges` returns the loop
emissions plus, when the wrap-around guard holds, the final wrap-around
range keyed by the last emitted token and the raw end token. -/
theorem exp_get_ranges_loop_shape (hn dc : String) (m : Int)
    (b e : Option Int) (r1 r2 : Int × List Replica)
    (rest : List (Int × List Replica))
    (hv1 : ¬(truthy b = true ∧ pyLt b (some m) = true))
    (hv2 : ¬(truthy b = true ∧ truthy e = true ∧ pyGt b e = true)) :
    ExportTask.get_ranges hn dc true (some m) b e (r1 :: r2 :: rest) =
      (if ExportTask.loop_last b e m hn dc (r1 :: r2 :: rest) none ≠ none ∧
          (¬ truthy e = true ∨
            pyLt (ExportTask.loop_last b e m hn dc (r1 :: r2 :: rest) none) e
              = true)
       then ExportTask.loop_emitted b e m hn dc (r1 :: r2 :: rest) none ++
         [((ExportTask.loop_last b e m hn dc (r1 :: r2 :: rest) none, e),
           ExportTask.make_range_data hn dc (some r1.2))]
       else ExportTask.loop_emitted b e m hn dc (r1 :: r2 :: rest) none) := by
  unfold ExportTask.get_ranges
  rw [if_neg hv1, if_neg hv2]
  rfl

/-- Claim C3 (amended): on the multi-token ring path of `get_ranges` (sorted
ring, begin token validated against the ring minimum, end token not the falsy
literal `0`, and - when a begin token is set - some non-minimum ring token at
or above it), every emitted range is the window-clipped `(prev, curr]` pair,
the emitted ranges are pairwise disjoint, and a token is covered by some
emitted range exactly when it lies in the `(begintoken, endtoken]` window.
(The original claim's "no empty range is ever emitted" part is false: a pair
whose token equals the begin token, or whose predecessor equals the end
token, is emitted as an empty boundary range, see the counterexample.) -/
theorem C3_get_ranges_disjoint_cover (hn dc : String) (m : Int)
    (b e : Option Int) (r1 r2 : Int × List Replica)
    (rest : List (Int × List Replica))
    (he0 : e ≠ some 0)
    (hsort : List.Pairwise (fun a c => a < c)
      ((r1 :: r2 :: rest).map (fun p => p.1)))
    (hbm : truthy b = true → pyLt b (some m) = false)
    (hbw : truthy b = true →
      ∃ p ∈ (r1 :: r2 :: rest), p.1 ≠ m ∧ pyLt (some p.1) b = false) :
    List.Pairwise ExportTask.disjoint_ranges
      ((ExportTask.get_ranges hn dc true (some m) b e
        (r1 :: r2 :: rest)).map (fun kv => kv.1)) ∧
    ∀ x : Int,
      ((ExportTask.get_ranges hn dc true (some m) b e
          (r1 :: r2 :: rest)).any (fun kv => ExportTask.mem_range kv.1 x))
        = true ↔ ExportTask.in_window b e x = true := by
  have hv1 : ¬(truthy b = true ∧ pyLt b (some m) = true) := by
    rintro ⟨h1, h2⟩
    rw [hbm h1] at h2
    cases h2
  by_cases hv2 : truthy b = true ∧ truthy e = true ∧ pyGt b e = true
  · have hempty : ExportTask.get_ranges hn dc true (some m) b e
        (r1 :: r2 :: rest) = [] := by
      unfold ExportTask.get_ranges
      rw [if_neg hv1, if_pos hv2]
    rw [hempty]
    obtain ⟨hb, he, hgtbe⟩ := hv2
    refine ⟨by simp, fun x => ?_⟩
    simp only [List.any_nil]
    constructor
    · intro hcontra
      simp at hcontra
    · intro hw
      exfalso
      unfold ExportTask.in_window at hw
      rw [Bool.and_eq_true] at hw
      obtain ⟨hw1, hw2⟩ := hw
      rw [if_pos hb] at hw1
      rw [if_pos he] at hw2
      cases b with
      | none => simp [truthy] at hb
      | some bv =>
        cases e with
        | none => simp [truthy] at he
        | some ev =>
          simp only [Option.getD_some, decide_eq_true_eq] at hw1 hw2
          simp [pyGt, pyLt] at hgtbe
          omega
  · have hbe : truthy b = true → truthy e = true → pyGt b e = false := by
      intro hb he
      by_contra hcontra
      exact hv2 ⟨hb, he, by simpa using hcontra⟩
    have hgt0 : ∀ p ∈ (r1 :: r2 :: rest), pyLt none (some p.1) = true := by
      intro p _
      simp [pyLt]
    have hwit : ∃ p ∈ (r1 :: r2 :: rest), p.1 ≠ m ∧
        (truthy b = true → pyLt (some p.1) b = false) := by
      by_cases hb : truthy b = true
      · obtain ⟨p, hp, hpm, hpb⟩ := hbw hb
        exact ⟨p, hp, hpm, fun _ => hpb⟩
      · have h12 : r1.1 < r2.1 := by
          rw [List.map_cons, List.pairwise_cons] at hsort
          exact hsort.1 r2.1 (by simp)
        by_cases hm1 : r1.1 = m
        · exact ⟨r2, by simp, by omega, fun hb' => absurd hb' hb⟩
        · exact ⟨r1, by simp, hm1, fun hb' => absurd hb' hb⟩
    obtain ⟨q, hq⟩ := exp_loop_last_isSome b e m hn dc (r1 :: r2 :: rest)
      none hgt0 hsort hbe hwit
    have hqb := exp_loop_last_not_lt_b b e m hn dc (r1 :: r2 :: rest) none
      (Or.inl rfl) q hq
    have hhigh := exp_loop_emitted_high b e m hn dc (r1 :: r2 :: rest) none
      hgt0 hsort
    have hpair := exp_loop_emitted_pairwise b e m hn dc (r1 :: r2 :: rest)
      none hgt0 hsort
    have hsub := exp_loop_emitted_window_sub b e m hn dc (r1 :: r2 :: rest)
      none
    have hcompl := exp_loop_emitted_complete b e m hn dc (r1 :: r2 :: rest)
      none hgt0 hsort
    rw [exp_get_ranges_loop_shape hn dc m b e r1 r2 rest hv1 hv2, hq]
    split_ifs with hwrap
    · constructor
      · rw [List.map_append, List.pairwise_append]
        refine ⟨by rw [List.pairwise_map]; exact hpair, by simp, ?_⟩
        intro k1 hk1 k2 hk2 x hx
        simp only [List.map_cons, List.map_nil, List.mem_singleton] at hk2
        obtain ⟨hx1, hx2⟩ := hx
        rcases List.mem_map.mp hk1 with ⟨kv, hkv, hkveq⟩
        have hxq : x ≤ q := hhigh kv hkv x (by rw [hkveq]; exact hx1) q hq
        rw [hk2] at hx2
        unfold ExportTask.mem_range at hx2
        rw [Bool.and_eq_true] at hx2
        have hqx : q < x := by simpa using hx2.1
        omega
      · intro x
        rw [List.any_eq_true]
        constructor
        · rintro ⟨kv, hkv, hmem⟩
          rcases List.mem_append.mp hkv with hkv | hkv
          · exact hsub kv hkv x hmem
          · simp only [List.mem_singleton] at hkv
            rw [hkv] at hmem
            unfold ExportTask.mem_range at hmem
            rw [Bool.and_eq_true] at hmem
            have hqx : q < x := by simpa using hmem.1
            unfold ExportTask.in_window
            rw [Bool.and_eq_true]
            constructor
            · by_cases hb : truthy b = true
            
              · rw [if_pos hb]
                cases b with
                | none => simp [truthy] at hb
                | some bv =>
                  have := hqb hb
                  simp [pyLt] at this
                  simp only [Option.getD_some, decide_eq_true_eq]
                  omega
              · rw [if_neg hb]
            · by_cases he : truthy e = true
              · rw [if_pos he]
                cases e with
                | none => simp [truthy] at he
                | some ev =>
                  have := hmem.2
                  simpa using this
              · rw [if_neg he]
        · intro hw
          by_cases hxq : x ≤ q
          · obtain ⟨kv, hkv, hmem⟩ := hcompl x hw (by simp [pyLt]) q hq hxq
            exact ⟨kv, List.mem_append_left _ hkv, hmem⟩
          · refine ⟨((some q, e), ExportTask.make_range_data hn dc
              (some r1.2)), List.mem_append_right _ (by simp), ?_⟩
            unfold ExportTask.mem_range
            rw [Bool.and_eq_true]
            refine ⟨by simp; omega, ?_⟩
            rcases hwrap.2 with hne | hlt
            · have he_none : e = none := by
                cases e with
                | none => rfl
                | some ev =>
                  simp [truthy] at hne
                  rw [hne] at he0
                  exact absurd rfl he0
              rw [he_none]
            · cases e with
              | none => simp
              | some ev =>
                have het : truthy (some ev) = true := by
                  simp [truthy]
                  intro h0
                  rw [h0] at he0
                  exact he0 rfl
                unfold ExportTask.in_window at hw
                rw [Bool.and_eq_true] at hw
                have := hw.2
                rw [if_pos het] at this
                simpa using this
    · constructor
      · rw [List.pairwise_map]
        exact hpair
      · intro x
        rw [List.any_eq_true]
        constructor
        · rintro ⟨kv, hkv, hmem⟩
          exact hsub kv hkv x hmem
        · intro hw
          have hcond : truthy e = true ∧ pyLt (some q) e = false := by
            by_contra hcontra
            apply hwrap
            refine ⟨by simp, ?_⟩
            by_cases he : truthy e = true
            · by_cases hle : pyLt (some q) e = true
              · exact Or.inr hle
              · exact absurd ⟨he, by simpa using hle⟩ hcontra
            · exact Or.inl he
          obtain ⟨he, hqe⟩ := hcond
          cases e with
          | none => simp [truthy] at he
          | some ev =>
            have hxev : x ≤ ev := by
              unfold ExportTask.in_window at hw
              rw [Bool.and_eq_true] at hw
              have := hw.2
              rw [if_pos he] at this
              simpa using this
            have hevq : ev ≤ q := by
              simp [pyLt] at hqe
              omega
            exact hcompl x hw (by simp [pyLt]) q hq (by omega)

/-- Counterexample for C3 as stated: with begintoken = 20 on the sorted ring
with tokens 10, 20, 30, the adjacent pair whose token equals the begin token
has an empty intersection with the window `(20, +inf)` yet is not skipped: it
is emitted as the empty range `(20, 20]`. -/
theorem C3_empty_range_emitted :
    ((ExportTask.get_ranges "h" "dc" true (some (-(2 ^ 63))) (some 20) none
      [(10, []), (20, []), (30, [])]).map (fun kv => kv.1)) =
      [(some 20, some 20), (some 20, some 30), (some 30, none)] ∧
    (∀ x : Int, ¬ ExportTask.mem_range (some 20, some 20) x = true) := by
  constructor
  · rfl
  · intro x hx
    simp [ExportTask.mem_range] at hx
    omega

/-- Witness for C3 at the concrete sorted ring with tokens 10, 20, 30 and
window `(15, 25]` on a Murmur3 ring. -/
theorem C3_get_ranges_disjoint_cover_witness :
    List.Pairwise ExportTask.disjoint_ranges
      ((ExportTask.get_ranges "h" "dc" true (some (-(2 ^ 63))) (some 15)
        (some 25) [(10, []), (20, []), (30, [])]).map (fun kv => kv.1)) ∧
    ∀ x : Int,
      ((ExportTask.get_ranges "h" "dc" true (some (-(2 ^ 63))) (some 15)
          (some 25) [(10, []), (20, []), (30, [])]).any
          (fun kv => ExportTask.mem_range kv.1 x)) = true ↔
        ExportTask.in_window (some 15) (some 25) x = true :=
  C3_get_ranges_disjoint_cover "h" "dc" (-(2 ^ 63)) (some 15) (some 25)
    (10, []) (20, []) [(30, [])] (by decide) (by decide) (by decide)
    (by decide)

/-- Helper: a zero begin token is falsy, so `make_range` clips exactly as
with no begin token. -/
theorem exp_make_range_b0 (e prev curr : Option Int) :
    ExportTask.make_range (some 0) e prev curr =
      ExportTask.make_range none e prev curr := rfl

/-- Helper: a zero end token is falsy, so `make_range` clips exactly as with
no end token. -/
theorem exp_make_range_e0 (b prev curr : Option Int) :
    ExportTask.make_range b (some 0) prev curr =
      ExportTask.make_range b none prev curr := by
  unfold ExportTask.make_range
  have h0 : truthy (some 0) = false := by decide
  have hn : truthy (none : Option Int) = false := rfl
  cases hmk : (if truthy b = true then
      if pyLt curr b = true then none
      else if pyLt prev b = true then some (b, curr) else some (prev, curr)
    else some (prev, curr) : Option (Option Int × Option Int)) <;>
    simp [h0, hn]

/-- Helper: the ring loop with a zero begin token equals the loop with no
begin token. -/
theorem exp_ranges_loop_b0 (e : Option Int) (m : Int) (hn dc : String)
    (S : List (Int × List Replica)) (prev : Option Int)
    (acc : List ((Option Int × Option Int) × RangeData)) :
    ExportTask.ranges_loop (some 0) e m hn dc S prev acc =
      ExportTask.ranges_loop none e m hn dc S prev acc := by
  induction S generalizing prev acc with
  | nil => rfl
  | cons p rest ih =>
    rcases p with ⟨t, reps⟩
    unfold ExportTask.ranges_loop
    rw [exp_make_range_b0]
    by_cases hm : t = m
    · rw [if_pos hm, if_pos hm]
      exact ih prev acc
    · rw [if_neg hm, if_neg hm]
      cases hmk : ExportTask.make_range none e prev (some t) with
      | none =>
        dsimp only
        exact ih prev acc
      | some rng =>
        dsimp only
        exact ih (some t) _
 
/-- Helper: the ring loop with a zero end token equals the loop with no end
token. -/
theorem exp_ranges_loop_e0 (b : Option Int) (m : Int) (hn dc : String)
    (S : List (Int × List Replica)) (prev : Option Int)
    (acc : List ((Option Int × Option Int) × RangeData)) :
    ExportTask.ranges_loop b (some 0) m hn dc S prev acc =
      ExportTask.ranges_loop b none m hn dc S prev acc := by
  induction S generalizing prev acc with
  | nil => rfl
  | cons p rest ih =>
    rcases p with ⟨t, reps⟩
    unfold ExportTask.ranges_loop
    rw [exp_make_range_e0]
    by_cases hm : t = m
    · rw [if_pos hm, if_pos hm]
      exact ih prev acc
    · rw [if_neg hm, if_neg hm]
      cases hmk : ExportTask.make_range b none prev (some t) with
      | none =>
        dsimp only
        exact ih prev acc
      | some rng =>
        dsimp only
        exact ih (some t) _

/-- Helper: with no end token, every range the loop emits has an integer
upper bound (only the wrap-around key can carry `None`). -/
theorem exp_loop_emitted_snd_ne_none (b : Option Int) (m : Int)
    (hn dc : String) (S : List (Int × List Replica)) (prev : Option Int) :
    ∀ kv ∈ ExportTask.loop_emitted b none m hn dc S prev,
      kv.1.2 ≠ none := by
  induction S generalizing prev with
  | nil =>
    intro kv hkv
    simp [ExportTask.loop_emitted, ExportTask.ranges_loop] at hkv
  | cons p rest ih =>
    rcases p with ⟨t, reps⟩
    by_cases hm : t = m
    · rw [(exp_loop_cons_min b none m hn dc t reps rest prev hm).1]
      exact ih prev
    · cases hmk : ExportTask.make_range b none prev (some t) with
      | none =>
        rw [(exp_loop_cons_skip b none m hn dc t reps rest prev hm hmk).1]
        exact ih prev
      | some rng =>
        rw [(exp_loop_cons_emit b none m hn dc t reps rest prev rng hm
          hmk).1]
        intro kv hkv
        rcases List.mem_cons.mp hkv with hkv | hkv
        · rw [hkv]
          rcases (exp_make_range_cases b none prev t rng hmk).2.1 with
            ⟨hh, -⟩ | ⟨he, -, -⟩
          · simp [hh]
          · cases he
        · exact ih (some t) kv hkv

/-- Helper: mapping a pointwise-identity function over a list is the
identity. -/
theorem list_map_self {α : Type} (f : α → α) (l : List α)
    (h : ∀ x ∈ l, f x = x) : l.map f = l := by
  induction l with
  | nil => rfl
  | cons a rest ih =>
    rw [List.map_cons, h a (List.mem_cons_self _ _),
      ih (fun x hx => h x (List.mem_cons_of_mem _ hx))]

/-- Claim C10 (amended): a begintoken or endtoken given as 0 is falsy, so the
begin-token and begin-before-end validations are skipped and `make_range`
performs no clipping against the zero bound; with begintoken = 0 on a
multi-token ring `get_ranges` is identical to the unset case (the entire ring
is exported), but with endtoken = 0 the ranges equal the unset case with
every `None` upper bound replaced by the literal token 0 - the wrap-around
query then carries `token <= 0`, so the ring above token 0 past the last
ring token is NOT exported (see the counterexample). -/
theorem C10_zero_token_behavior :
    (∀ e prev curr : Option Int,
      ExportTask.make_range (some 0) e prev curr =
        ExportTask.make_range none e prev curr)
    ∧ (∀ b prev curr : Option Int,
      ExportTask.make_range b (some 0) prev curr =
        ExportTask.make_range b none prev curr)
    ∧ (∀ (hn dc : String) (m : Int) (e : Option Int)
        (r1 r2 : Int × List Replica) (rest : List (Int × List Replica)),
      ExportTask.get_ranges hn dc true (some m) (some 0) e
          (r1 :: r2 :: rest) =
        ExportTask.get_ranges hn dc true (some m) none e (r1 :: r2 :: rest))
    ∧ (∀ (hn dc : String) (tmp : Bool) (mt b : Option Int)
        (ring : List (Int × List Replica)),
      ExportTask.get_ranges hn dc tmp mt b (some 0) ring =
        (ExportTask.get_ranges hn dc tmp mt b none ring).map
          (fun kv => ((kv.1.1,
            if kv.1.2 = (none : Option Int) then some 0 else kv.1.2),
            kv.2))) := by
  refine ⟨fun e prev curr => exp_make_range_b0 e prev curr,
    fun b prev curr => exp_make_range_e0 b prev curr, ?_, ?_⟩
  · intro hn dc m e r1 r2 rest
    have hv1a : ¬(truthy (some 0) = true ∧
        pyLt (some 0) (some m) = true) := by
      rintro ⟨h, -⟩
      simp [truthy] at h
    have hv2a : ¬(truthy (some 0) = true ∧ truthy e = true ∧
        pyGt (some 0) e = true) := by
      rintro ⟨h, -⟩
      simp [truthy] at h
    have hv1b : ¬(truthy (none : Option Int) = true ∧
        pyLt none (some m) = true) := by
      rintro ⟨h, -⟩
      simp [truthy] at h
    have hv2b : ¬(truthy (none : Option Int) = true ∧ truthy e = true ∧
        pyGt none e = true) := by
      rintro ⟨h, -⟩
      simp [truthy] at h
    rw [exp_get_ranges_loop_shape hn dc m (some 0) e r1 r2 rest hv1a hv2a,
      exp_get_ranges_loop_shape hn dc m none e r1 r2 rest hv1b hv2b]
    have hl : ExportTask.loop_last (some 0) e m hn dc (r1 :: r2 :: rest)
        none = ExportTask.loop_last none e m hn dc (r1 :: r2 :: rest)
        none := by
      unfold ExportTask.loop_last
      rw [exp_ranges_loop_b0]
    have hE : ExportTask.loop_emitted (some 0) e m hn dc (r1 :: r2 :: rest)
        none = ExportTask.loop_emitted none e m hn dc (r1 :: r2 :: rest)
        none := by
      unfold ExportTask.loop_emitted
      rw [exp_ranges_loop_b0]
    rw [hl, hE]
  · intro hn dc tmp mt b ring
    by_cases hv1 : truthy b = true ∧ pyLt b mt = true
    · unfold ExportTask.get_ranges
      rw [if_pos hv1, if_pos hv1]
      rfl
    · have hv2a : ¬(truthy b = true ∧ truthy (some 0) = true ∧
          pyGt b (some 0) = true) := by
        rintro ⟨-, h, -⟩
        simp [truthy] at h
      have hv2b : ¬(truthy b = true ∧ truthy (none : Option Int) = true ∧
          pyGt b none = true) := by
        rintro ⟨-, h, -⟩
        simp [truthy] at h
      unfold ExportTask.get_ranges
      rw [if_neg hv1, if_neg hv1, if_neg hv2a, if_neg hv2b]
      cases tmp with
      | false => rfl
      | true =>
        cases mt with
        | none => rfl
        | some m =>
          cases ring with
          | nil => rfl
          | cons r1 tail =>
            cases tail with
            | nil => rfl
            | cons r2 rest =>
              dsimp only
              rw [exp_ranges_loop_e0 b m hn dc (r1 :: r2 :: rest) none []]
              simp only [Prod.mk.eta]
              have hmapE : (ExportTask.ranges_loop b none m hn dc
                  (r1 :: r2 :: rest) none []).2.map
                  (fun kv => ((kv.1.1,
                    if kv.1.2 = (none : Option Int) then some 0 else kv.1.2),
                    kv.2)) =
                  (ExportTask.ranges_loop b none m hn dc (r1 :: r2 :: rest)
                    none []).2 := by
                refine list_map_self _ _ ?_
                intro kv hkv
                have hne := exp_loop_emitted_snd_ne_none b m hn dc
                  (r1 :: r2 :: rest) none kv hkv
                simp [hne]
              by_cases hcond : (ExportTask.ranges_loop b none m hn dc
                  (r1 :: r2 :: rest) none []).1 ≠ none
              · rw [if_pos ⟨hcond, Or.inl (by decide)⟩,
                  if_pos ⟨hcond, Or.inl (by decide)⟩]
                rw [List.map_append]
                rw [hmapE]
                rfl
              · rw [if_neg (fun hc => hcond hc.1),
                  if_neg (fun hc => hcond hc.1)]
                exact hmapE.symm

/-- Counterexample for C10 as stated: on the two-token Murmur3 ring with
tokens 10 and 20, an explicit endtoken = 0 does not behave as if the option
were unset - token 30 is covered by the generated ranges when the option is
unset but not when endtoken = 0, because the wrap-around key carries the
literal bound 0 and the export query then demands `token(pk) <= 0`. -/
theorem C10_endtoken_zero_not_full_ring :
    ((ExportTask.get_ranges "h" "dc" true (some (-(2 ^ 63))) none (some 0)
      [(10, []), (20, [])]).any (fun kv => ExportTask.mem_range kv.1 30))
      = false ∧
    ((ExportTask.get_ranges "h" "dc" true (some (-(2 ^ 63))) none none
      [(10, []), (20, [])]).any (fun kv => ExportTask.mem_range kv.1 30))
      = true := by
  exact ⟨by decide, by decide⟩
